import Mathlib

set_option maxRecDepth 4000

/-!
Verification development for the window/door quoting system
(`pricing_engine.js`: the `PricingEngine` object and the version
export/import utilities).

Modelling conventions:
* JS numbers are modelled as `ℚ` (exact rational arithmetic; every
  JS float is a dyadic rational, hence a finite-decimal rational).
* JS `undefined`/`null` object fields are modelled as `Option` fields;
  JS truthiness tests (`x || d`, `if (x)`) are modelled by explicit
  helpers (`jsOrNum`, `jsStrTruthy`, ...) that treat `0`, `""`,
  `none` as falsy.
* JS exceptions are modelled with `Except PricingError`; a thrown
  exception aborts the computation, so an erroring run produces no
  result value at all (no partial results).
* JS objects used as keyed collections are modelled as association
  lists `List (String × α)`; `obj[k] = v` preserves the position of an
  existing key and appends a fresh key, as JS insertion order does.
* All definitions are structural recursions, so that concrete runs
  reduce inside the kernel.
-/

/-! ## JS string primitives -/

/-- Whitespace predicate used by JS `String.prototype.trim`. -/
def wsp (c : Char) : Bool := c.isWhitespace

/-- Drop leading whitespace (left half of JS `trim`). -/
def trimLeftL (l : List Char) : List Char := l.dropWhile wsp

/-- Drop trailing whitespace (right half of JS `trim`). -/
def trimRightL (l : List Char) : List Char := (l.reverse.dropWhile wsp).reverse

/-- JS `String.prototype.trim` on a character list. -/
def trimL (l : List Char) : List Char := trimRightL (trimLeftL l)

/-- JS `s.trim()`. -/
def jsTrimStr (s : String) : String := ⟨trimL s.data⟩

/-- JS `s.split(sep)` for a one-character separator, on character lists.
`splitOnCharL c [] = [[]]`, matching JS `"".split(c) = [""]`. -/
def splitOnCharL (sep : Char) : List Char → List (List Char)
  | [] => [[]]
  | c :: cs =>
    if c = sep then [] :: splitOnCharL sep cs
    else
      match splitOnCharL sep cs with
      | [] => [[c]]
      | t :: ts => (c :: t) :: ts

/-- JS `s.split(sep)` for a one-character separator. -/
def jsSplit (sep : Char) (s : String) : List String :=
  (splitOnCharL sep s.data).map (fun l => ⟨l⟩)

/-- Concatenation of a list of strings (models repeated `csv += row`). -/
def concatAll : List String → String
  | [] => ""
  | s :: rest => s ++ concatAll rest

/-- JS `array.join(sep)`. -/
def joinWith (sep : String) : List String → String
  | [] => ""
  | [s] => s
  | s :: rest => s ++ sep ++ joinWith sep rest

/-- JS `s.toUpperCase()` (ASCII is all that reaches it here). -/
def jsToUpper (s : String) : String := ⟨s.data.map Char.toUpper⟩

/-! ## JS number formatting and parsing

JS renders numbers in shortest decimal notation and parses them back
with `parseFloat` / `parseInt`.  Every number that actually flows
through the engine is a finite-decimal rational, rendered as
`-?digits(.digits)?`; the functions below model exactly that fragment.
-/

/-- The decimal digit character for `d < 10`. -/
def digitChar (d : Nat) : Char := Char.ofNat (48 + d)

/-- Fuel-driven decimal rendering helper (structural, kernel-reducible). -/
def natToDigitsAux : Nat → Nat → List Char
  | 0, _ => []
  | fuel + 1, n =>
    if n < 10 then [digitChar n]
    else natToDigitsAux fuel (n / 10) ++ [digitChar (n % 10)]

/-- Decimal digit list of a natural number (e.g. `120 ↦ ['1','2','0']`). -/
def natToDigits (n : Nat) : List Char := natToDigitsAux (n + 1) n

/-- Numeric value of a digit character. -/
def digitVal (c : Char) : Nat := c.toNat - 48

/-- Value of a decimal digit list. -/
def digitsToNat (l : List Char) : Nat := l.foldl (fun acc c => acc * 10 + digitVal c) 0

/-- `m` rendered as exactly `k` decimal digits, left-padded with zeros. -/
def padZeros (k m : Nat) : List Char :=
  List.replicate (k - (natToDigits m).length) '0' ++ natToDigits m

/-- Multiplicity of the prime `p` in `n` (fuel-driven, structural). -/
def facCountAux : Nat → Nat → Nat → Nat
  | 0, _, _ => 0
  | fuel + 1, p, n =>
    if n % p = 0 ∧ n ≠ 0 ∧ 1 < p then facCountAux fuel p (n / p) + 1 else 0

/-- Multiplicity of the prime `p` in `n`. -/
def facCount (p n : Nat) : Nat := facCountAux n p n

/-- If `d = 2^a * 5^b`, the least `k` with `d ∣ 10^k` (`k = max a b`);
otherwise `none`.  JS denominators are always powers of two, so real JS
numbers always land in the `some` case. -/
def decimalExp (d : Nat) : Option Nat :=
  let a := facCount 2 d
  let b := facCount 5 d
  if d = 2 ^ a * 5 ^ b then some (max a b) else none

/-- Shortest decimal rendering of the non-negative rational `nAbs / d`
(`d` the reduced denominator).  The `none` fallback is unreachable for
JS-representable numbers. -/
def posRatToString (nAbs d : Nat) : String :=
  match decimalExp d with
  | some k =>
    let m := nAbs * (10 ^ k / d)
    if k = 0 then ⟨natToDigits m⟩
    else ⟨natToDigits (m / 10 ^ k)⟩ ++ "." ++ ⟨padZeros k (m % 10 ^ k)⟩
  | none => ⟨natToDigits nAbs⟩ ++ "/" ++ ⟨natToDigits d⟩

/-- JS number-to-string (template interpolation `${x}`) for the
finite-decimal rationals the system produces. -/
def jsNumToString (q : ℚ) : String :=
  if q.num < 0 then "-" ++ posRatToString q.num.natAbs q.den
  else posRatToString q.num.natAbs q.den

/-- Parse an unsigned decimal `digits(.digits)?` prefix, as JS
`parseFloat` does (`none` models `NaN`). -/
def parsePosFloatL (l : List Char) : Option ℚ :=
  let ipart := l.takeWhile Char.isDigit
  match l.dropWhile Char.isDigit with
  | c :: rest =>
    if c = '.' then
      let fpart := rest.takeWhile Char.isDigit
      if ipart.isEmpty ∧ fpart.isEmpty then none
      else some (mkRat (digitsToNat ipart * 10 ^ fpart.length + digitsToNat fpart)
        (10 ^ fpart.length))
    else if ipart.isEmpty then none else some ((digitsToNat ipart : ℤ) : ℚ)
  | [] => if ipart.isEmpty then none else some ((digitsToNat ipart : ℤ) : ℚ)

/-- JS `parseFloat` on the strings this system produces (optional sign,
decimal digits, optional fraction; `none` models `NaN`). -/
def jsParseFloat (s : String) : Option ℚ :=
  match s.data with
  | [] => none
  | c :: rest =>
    if c = '-' then (parsePosFloatL rest).map (fun q => -q)
    else parsePosFloatL (c :: rest)

/-- JS `parseInt(s)` on the strings this system produces (optional sign
then a decimal-digit prefix; `none` models `NaN`). -/
def jsParseInt (s : String) : Option ℤ :=
  match s.data with
  | [] => none
  | c :: rest =>
    if c = '-' then
      match rest.takeWhile Char.isDigit with
      | [] => none
      | ds => some (-(digitsToNat ds : ℤ))
    else
      match (c :: rest).takeWhile Char.isDigit with
      | [] => none
      | ds => some ((digitsToNat ds : ℤ))

/-- JS `parseInt(s) || 0`: `NaN` and `0` both collapse to `0`. -/
def jsParseIntOrZero (s : String) : ℚ :=
  match jsParseInt s with
  | some z => if z = 0 then 0 else (z : ℚ)
  | none => 0

/-! ## JS truthiness and object helpers -/

/-- JS `x || d` for numbers: `undefined`/`null`/`0` give `d`. -/
def jsOrNum (o : Option ℚ) (d : ℚ) : ℚ :=
  match o with
  | some x => if x = 0 then d else x
  | none => d

/-- Truthy projection of an optional string: `""` is falsy. -/
def jsStrTruthy : Option String → Option String
  | some s => if s = "" then none else some s
  | none => none

/-- JS `a || b` for strings: the right operand is returned as-is. -/
def jsOr2Str (a b : Option String) : Option String :=
  match jsStrTruthy a with
  | some s => some s
  | none => b

/-- JS `a || b || c` for strings. -/
def jsOr3Str (a b c : Option String) : Option String :=
  match jsStrTruthy a with
  | some s => some s
  | none => jsOr2Str b c

/-- First-occurrence deduplication, as JS `[...new Set(list)]`. -/
def dedupGo (seen : List String) : List String → List String
  | [] => []
  | x :: xs => if x ∈ seen then dedupGo seen xs else x :: dedupGo (x :: seen) xs

/-- JS object read `obj[k]` on an association list. -/
def objGet (k : String) : List (String × α) → Option α
  | [] => none
  | (k₂, v) :: rest => if k₂ = k then some v else objGet k rest

/-- JS object write `obj[k] = v`: overwrite in place, else append. -/
def objSet (k : String) (v : α) : List (String × α) → List (String × α)
  | [] => [(k, v)]
  | (k₂, v₂) :: rest => if k₂ = k then (k, v) :: rest else (k₂, v₂) :: objSet k v rest

/-! ## Catalog data model -/

/-- Manufacturer: `{id, name}`. -/
structure Manufacturer where
  id : String
  name : String
deriving DecidableEq, Repr

/-- Product line: `{id, manufacturerId, name}`. -/
structure ProductLine where
  id : String
  manufacturerId : String
  name : String
deriving DecidableEq, Repr

/-- The optional `product.sizeLimits` object. -/
structure SizeLimits where
  minWidth : Option ℚ := none
  maxWidth : Option ℚ := none
  minHeight : Option ℚ := none
  maxHeight : Option ℚ := none
deriving DecidableEq, Repr

/-- Product, with every field the JS code reads.  `productLine` and
`type` are the legacy fallback fields consulted by `isAddonAllowed`. -/
structure Product where
  id : String := ""
  productLineId : Option String := none
  productLine : Option String := none
  productType : Option String := none
  type : Option String := none
  productTypeCode : Option String := none
  name : Option String := none
  pricingModel : String := ""
  uiRate : Option ℚ := none
  flatPrice : Option ℚ := none
  minimumUI : Option ℚ := none
  maximumUI : Option ℚ := none
  sizeLimits : Option SizeLimits := none
  allowedAddons : Option (List String) := none
deriving DecidableEq, Repr

/-- Addon, with every field the JS code reads. -/
structure Addon where
  id : String := ""
  name : Option String := none
  pricingModel : String := ""
  uiRate : Option ℚ := none
  flatPrice : Option ℚ := none
  exclusiveGroup : Option String := none
  mandatory : Bool := false
  hiddenFromCustomer : Bool := false
  isJobBased : Bool := false
  allowedProductTypes : Option (List String) := none
  allowedProductLines : Option (List String) := none
  minSize : Option ℚ := none
  maxSize : Option ℚ := none
deriving DecidableEq, Repr

/-- Entry of `appliedAddons`: `{id, name, price, hidden}`. -/
structure AppliedAddon where
  id : String
  name : Option String
  price : ℚ
  hidden : Bool
deriving DecidableEq, Repr

/-- Result of `calculateLineItem`. -/
structure LineItem where
  ui : ℚ
  basePrice : ℚ
  addonTotal : ℚ
  lineItemParTotal : ℚ
  appliedAddons : List AppliedAddon
deriving DecidableEq, Repr

/-- A job-based addon as read by `calculateQuote` (only `.price`). -/
structure JobAddon where
  price : Option ℚ := none
deriving DecidableEq, Repr

/-- Result of `calculateQuote`. -/
structure QuoteTotals where
  totalParPrice : ℚ
  jobAddonTotal : ℚ
  jobBasedAddons : List JobAddon
  salesUplift : ℚ
  finalPrice : ℚ
deriving DecidableEq, Repr

/-- The errors the engine throws (`throw new Error(...)` sites). -/
inductive PricingError where
  | invalidConfiguration (pricingModel : String)
  | exclusiveGroupConflict (group : String)
  | negativeUplift
  | priceFloorViolation
deriving DecidableEq, Repr

/-- Decidable equality for `Except` results, for concrete evaluation. -/
instance {ε α : Type} [DecidableEq ε] [DecidableEq α] : DecidableEq (Except ε α) := fun a b => by
  cases a <;> cases b
  case error.error e₁ e₂ => exact decidable_of_iff (e₁ = e₂) (by simp)
  case ok.ok a₁ a₂ => exact decidable_of_iff (a₁ = a₂) (by simp)
  case error.ok => exact isFalse (by simp)
  case ok.error => exact isFalse (by simp)

/-- Result of `createQuoteVersion`. -/
structure QuoteVersion where
  id : String
  quoteId : String
  timestamp : String
  lineItems : List LineItem
  totalParPrice : ℚ
  salesUplift : ℚ
  finalPrice : ℚ
  locked : Bool
  metadata : List (String × String)
deriving DecidableEq, Repr

/-- Result of `validateSize` / `validateUI`.  The early return
`{valid: true}` (no `errors` key) is modelled as an empty list. -/
structure ValidationResult where
  valid : Bool
  errors : List String
deriving DecidableEq, Repr

/-! ## Pricing engine -/

/-- `PricingEngine.calculateUI(width, height)`: `Math.ceil(width + height)`. -/
def calculateUI (width height : ℚ) : ℤ := ⌈width + height⌉

/-- `PricingEngine.isAddonAllowed(addon, product, ui)`.  The four
early-return clauses are conjoined.  `maxSize !== null && ui > maxSize`
excludes the addon exactly when `maxSize` is an actual number that `ui`
exceeds (a JS `undefined` bound compares as `false`, so it never
excludes, same as `null`); likewise for `minSize`. -/
def isAddonAllowed (addon : Addon) (product : Product) (ui : ℚ) : Bool :=
  let typeOk :=
    match addon.allowedProductTypes with
    | some types =>
      if 0 < types.length then
        match jsStrTruthy (jsOr3Str product.productType product.type product.productTypeCode) with
        | some t => types.contains t
        | none => false
      else true
    | none => true
  let lineOk :=
    match addon.allowedProductLines with
    | some lines =>
      if 0 < lines.length then
        match jsStrTruthy (jsOr2Str product.productLineId product.productLine) with
        | some pl => lines.contains pl
        | none => false
      else true
    | none => true
  let maxOk :=
    match addon.maxSize with
    | some m => decide (ui ≤ m)
    | none => true
  let minOk :=
    match addon.minSize with
    | some m => decide (m ≤ ui)
    | none => true
  typeOk && lineOk && maxOk && minOk

/-- The mandatory addon ids auto-applied by `calculateLineItem`:
`(product.allowedAddons || []).filter(id => allAddons[id]?.mandatory)`. -/
def mandatoryAddonIds (product : Product) (allAddons : List (String × Addon)) : List String :=
  (product.allowedAddons.getD []).filter fun addonId =>
    match objGet addonId allAddons with
    | some a => a.mandatory
    | none => false

/-- The deduplicated union `[...new Set([...mandatoryAddonIds, ...selectedAddonIds])]`. -/
def appliedCandidateIds (product : Product) (selectedAddonIds : List String)
    (allAddons : List (String × Addon)) : List String :=
  dedupGo [] (mandatoryAddonIds product allAddons ++ selectedAddonIds)

/-- Addon price: `effectiveUI * addon.uiRate` for `UI`, `addon.flatPrice`
for `FLAT`, and the initial `0` for any other model (the JS code has no
`else` branch here).  A missing rate is modelled as `0` (the claims only
exercise addons whose rate for their model is present). -/
def addonPriceOf (addon : Addon) (effectiveUI : ℚ) : ℚ :=
  if addon.pricingModel = "UI" then effectiveUI * addon.uiRate.getD 0
  else if addon.pricingModel = "FLAT" then addon.flatPrice.getD 0
  else 0

/-- Base price of the product, or the `Invalid pricing model` error. -/
def basePriceOf (product : Product) (effectiveUI : ℚ) : Except PricingError ℚ :=
  if product.pricingModel = "UI" then .ok (effectiveUI * product.uiRate.getD 0)
  else if product.pricingModel = "FLAT" then .ok (product.flatPrice.getD 0)
  else .error (.invalidConfiguration product.pricingModel)

/-- The `for (const addonId of allAddonIds)` loop of `calculateLineItem`:
state is `(appliedAddons, usedExclusiveGroups, addonTotal)`.  Unknown or
disallowed addons are skipped; a repeated truthy `exclusiveGroup` throws. -/
def processAddons (product : Product) (ui effectiveUI : ℚ) (allAddons : List (String × Addon)) :
    List String → List AppliedAddon → List String → ℚ →
    Except PricingError (List AppliedAddon × ℚ)
  | [], applied, _, total => .ok (applied, total)
  | addonId :: rest, applied, usedGroups, total =>
    match objGet addonId allAddons with
    | none => processAddons product ui effectiveUI allAddons rest applied usedGroups total
    | some addon =>
      if isAddonAllowed addon product ui then
        let price := addonPriceOf addon effectiveUI
        let entry : AppliedAddon := ⟨addonId, addon.name, price, addon.hiddenFromCustomer⟩
        match jsStrTruthy addon.exclusiveGroup with
        | some g =>
          if g ∈ usedGroups then .error (.exclusiveGroupConflict g)
          else processAddons product ui effectiveUI allAddons rest
            (applied ++ [entry]) (g :: usedGroups) (total + price)
        | none => processAddons product ui effectiveUI allAddons rest
            (applied ++ [entry]) usedGroups (total + price)
      else processAddons product ui effectiveUI allAddons rest applied usedGroups total

/-- `PricingEngine.calculateLineItem({product, width, height,
selectedAddonIds, allAddons})`. -/
def calculateLineItem (product : Product) (width height : ℚ)
    (selectedAddonIds : List String) (allAddons : List (String × Addon)) :
    Except PricingError LineItem :=
  let ui : ℚ := (calculateUI width height : ℤ)
  let effectiveUI := max ui (jsOrNum product.minimumUI 0)
  match basePriceOf product effectiveUI with
  | .error e => .error e
  | .ok basePrice =>
    match processAddons product ui effectiveUI allAddons
        (appliedCandidateIds product selectedAddonIds allAddons) [] [] 0 with
    | .error e => .error e
    | .ok (applied, addonTotal) =>
      .ok { ui := effectiveUI, basePrice := basePrice, addonTotal := addonTotal,
            lineItemParTotal := basePrice + addonTotal, appliedAddons := applied }

/-- `PricingEngine.calculateQuote({lineItems, jobBasedAddons, salesUplift})`. -/
def calculateQuote (lineItems : List LineItem) (jobBasedAddons : List JobAddon)
    (salesUplift : ℚ) : Except PricingError QuoteTotals :=
  if salesUplift < 0 then .error .negativeUplift
  else
    let totalParPrice := lineItems.foldl (fun sum item => sum + item.lineItemParTotal) 0
    let jobAddonTotal := jobBasedAddons.foldl (fun sum addon => sum + jsOrNum addon.price 0) 0
    let finalPrice := totalParPrice + jobAddonTotal + salesUplift
    if finalPrice < totalParPrice then .error .priceFloorViolation
    else .ok { totalParPrice := totalParPrice, jobAddonTotal := jobAddonTotal,
               jobBasedAddons := jobBasedAddons, salesUplift := salesUplift,
               finalPrice := finalPrice }

/-- Structural copy of an applied-addon record (the JS deep clone
`JSON.parse(JSON.stringify(...))` rebuilds plain data field by field). -/
def deepCloneAppliedAddon (a : AppliedAddon) : AppliedAddon :=
  ⟨a.id, a.name, a.price, a.hidden⟩

/-- Structural copy of a line item. -/
def deepCloneLineItem (li : LineItem) : LineItem :=
  ⟨li.ui, li.basePrice, li.addonTotal, li.lineItemParTotal,
   li.appliedAddons.map deepCloneAppliedAddon⟩

/-- The deep clone of the `lineItems` array performed by
`createQuoteVersion`. -/
def deepCloneLineItems (ls : List LineItem) : List LineItem :=
  ls.map deepCloneLineItem

/-- `PricingEngine.createQuoteVersion({quoteId, lineItems, salesUplift,
metadata})`.  `Date.now()` and `new Date().toISOString()` are modelled
as the explicit clock inputs `now` and `timestamp`. -/
def createQuoteVersion (quoteId : String) (lineItems : List LineItem) (salesUplift : ℚ)
    (metadata : List (String × String)) (now : ℕ) (timestamp : String) :
    Except PricingError QuoteVersion :=
  match calculateQuote lineItems [] salesUplift with
  | .error e => .error e
  | .ok quoteCalc =>
    .ok { id := quoteId ++ "_v" ++ (⟨natToDigits now⟩ : String),
          quoteId := quoteId,
          timestamp := timestamp,
          lineItems := deepCloneLineItems lineItems,
          totalParPrice := quoteCalc.totalParPrice,
          salesUplift := quoteCalc.salesUplift,
          finalPrice := quoteCalc.finalPrice,
          locked := true,
          metadata := metadata }

/-- `PricingEngine.validateSize({product, width, height})`.  Each bound
is guarded by JS truthiness (`limits.minWidth && ...`), so a missing or
zero bound is unconstrained. -/
def validateSize (product : Product) (width height : ℚ) : ValidationResult :=
  match product.sizeLimits with
  | none => { valid := true, errors := [] }
  | some limits =>
    let errors :=
      (match limits.minWidth with
       | some m => if m ≠ 0 ∧ width < m
           then ["Width must be at least " ++ jsNumToString m ++ "\""] else []
       | none => []) ++
      (match limits.maxWidth with
       | some m => if m ≠ 0 ∧ m < width
           then ["Width cannot exceed " ++ jsNumToString m ++ "\""] else []
       | none => []) ++
      (match limits.minHeight with
       | some m => if m ≠ 0 ∧ height < m
           then ["Height must be at least " ++ jsNumToString m ++ "\""] else []
       | none => []) ++
      (match limits.maxHeight with
       | some m => if m ≠ 0 ∧ m < height
           then ["Height cannot exceed " ++ jsNumToString m ++ "\""] else []
       | none => [])
    { valid := errors.isEmpty, errors := errors }

/-- `PricingEngine.validateUI({product, ui})`.  Same truthiness guards
on `product.minimumUI` / `product.maximumUI`. -/
def validateUI (product : Product) (ui : ℚ) : ValidationResult :=
  let errors :=
    (match product.minimumUI with
     | some m => if m ≠ 0 ∧ ui < m
         then ["UI must be at least " ++ jsNumToString m] else []
     | none => []) ++
    (match product.maximumUI with
     | some m => if m ≠ 0 ∧ m < ui
         then ["UI cannot exceed " ++ jsNumToString m] else []
     | none => [])
  { valid := errors.isEmpty, errors := errors }

/-! ## Version codec: data model -/

/-- A catalog snapshot (`version`), with each collection as the
`Object.values(...)` iteration sequence of the corresponding keyed
object. -/
structure Version where
  manufacturers : List Manufacturer := []
  productLines : List ProductLine := []
  products : List Product := []
  addons : List Addon := []
deriving DecidableEq, Repr

/-- The catalog data object built by `importFromCSV`: four JS objects
keyed by entity id, modelled as association lists in insertion order. -/
structure CatalogData where
  manufacturers : List (String × Manufacturer) := []
  productLines : List (String × ProductLine) := []
  products : List (String × Product) := []
  addons : List (String × Addon) := []
deriving DecidableEq, Repr

/-- The section state of the `importFromCSV` line scanner. -/
inductive CsvSection where
  | manufacturers
  | productLines
  | products
  | addons
deriving DecidableEq, Repr

/-! ## Version codec: export -/

/-- Template interpolation `${x}` of a possibly-missing string field
(JS renders `undefined`). -/
def jsShow : Option String → String
  | some s => s
  | none => "undefined"

/-- Template interpolation `${x}` of a possibly-missing numeric field. -/
def jsShowNum : Option ℚ → String
  | some q => jsNumToString q
  | none => "undefined"

/-- `x || ''` for a numeric field (`0` and missing become empty). -/
def jsOrEmptyNum : Option ℚ → String
  | some q => if q = 0 then "" else jsNumToString q
  | none => ""

/-- `x || ''` for a string field. -/
def jsOrEmptyStr : Option String → String
  | some s => s
  | none => ""

/-- `b ? 'YES' : 'NO'`. -/
def yesNo (b : Bool) : String := if b then "YES" else "NO"

/-- One CSV record without its newline: each field wrapped in double
quotes, comma-separated (`"f1","f2",...`). -/
def csvLine (fields : List String) : String := "\"" ++ joinWith "\",\"" fields ++ "\""

/-- One CSV record line as `exportAsCSV` emits it. -/
def csvRow (fields : List String) : String := csvLine fields ++ "\n"

/-- The manufacturer columns `[id, name]`. -/
def manufacturerFields (m : Manufacturer) : List String := [m.id, m.name]

/-- The product-line columns `[id, manufacturerId, name]`. -/
def productLineFields (pl : ProductLine) : List String :=
  [pl.id, pl.manufacturerId, pl.name]

/-- The product columns, exactly as interpolated by `exportAsCSV`. -/
def productFields (p : Product) : List String :=
  [p.id, jsShow p.productLineId, jsShow p.productType, jsShow p.productTypeCode,
   jsShow p.name, p.pricingModel, jsOrEmptyNum p.uiRate, jsOrEmptyNum p.flatPrice,
   jsShowNum p.minimumUI, jsOrEmptyNum p.maximumUI]

/-- The addon columns, exactly as interpolated by `exportAsCSV`. -/
def addonFields (a : Addon) : List String :=
  [a.id, jsShow a.name, a.pricingModel, jsOrEmptyNum a.uiRate, jsOrEmptyNum a.flatPrice,
   jsOrEmptyStr a.exclusiveGroup, yesNo a.mandatory, yesNo a.hiddenFromCustomer,
   yesNo a.isJobBased, joinWith "; " (a.allowedProductTypes.getD []),
   joinWith "; " (a.allowedProductLines.getD []), jsOrEmptyNum a.minSize,
   jsOrEmptyNum a.maxSize]

/-- Column-title line of the MANUFACTURERS section. -/
def mfrColHdr : String := "ID,Name"

/-- Column-title line of the PRODUCT LINES section. -/
def plColHdr : String := "ID,Manufacturer ID,Name"

/-- Column-title line of the PRODUCTS section. -/
def pColHdr : String :=
  "ID,Product Line ID,Product Type,Type Code,Name,Pricing Model,UI Rate,Flat Price,Minimum UI,Maximum UI"

/-- Column-title line of the ADDONS section. -/
def aColHdr : String :=
  "ID,Name,Pricing Model,UI Rate,Flat Price,Exclusive Group,Mandatory,Hidden From Customer,Job Based,Allowed Product Types,Allowed Product Lines,Min Size,Max Size"

/-- `exportAsCSV(version)`: the CSV text handed to `downloadFile`
(the download side effect itself is outside the model). -/
def exportAsCSV (v : Version) : String :=
  "MANUFACTURERS\n" ++ (mfrColHdr ++ "\n") ++
    concatAll (v.manufacturers.map (fun m => csvRow (manufacturerFields m))) ++ "\n" ++
  "PRODUCT LINES\n" ++ (plColHdr ++ "\n") ++
    concatAll (v.productLines.map (fun pl => csvRow (productLineFields pl))) ++ "\n" ++
  "PRODUCTS\n" ++ (pColHdr ++ "\n") ++
    concatAll (v.products.map (fun p => csvRow (productFields p))) ++ "\n" ++
  "ADDONS\n" ++ (aColHdr ++ "\n") ++
    concatAll (v.addons.map (fun a => csvRow (addonFields a)))

/-! ## Version codec: import -/

/-- The character loop of `parseCSVLine`: `current` accumulates field
characters, `inQuotes` toggles on every `"`, a comma outside quotes
closes the current field with `current.trim()`. -/
def csvSplit : List Char → List Char → Bool → List (List Char)
  | [], current, _ => [trimL current]
  | c :: cs, current, inQuotes =>
    if c = '"' then csvSplit cs current (!inQuotes)
    else if c = ',' ∧ inQuotes = false then trimL current :: csvSplit cs [] inQuotes
    else csvSplit cs (current ++ [c]) inQuotes

/-- `parseCSVLine(line)`: split on unquoted commas, trim each value,
then strip every remaining `"` (`v.replace(/"/g, '')`). -/
def parseCSVLine (line : String) : List String :=
  (csvSplit line.data [] false).map (fun v => (⟨v.filter (fun c => ¬ c = '"')⟩ : String))

/-- JS array read `values[i]` (an out-of-range read is `undefined`;
the import only consumes it through falsy-tolerant operations, which
empty-string models). -/
def getV (values : List String) (i : Nat) : String := values.getD i ""

/-- The product object built by the PRODUCTS branch of `importFromCSV`.
An unparseable numeric field (JS `NaN`) is modelled as an absent one. -/
def importProduct (values : List String) : Product :=
  let pricingModel := getV values 5
  { id := getV values 0
    productLineId := some (getV values 1)
    productType := some (getV values 2)
    productTypeCode := some (getV values 3)
    name := some (getV values 4)
    pricingModel := pricingModel
    uiRate :=
      if pricingModel = "UI" ∧ getV values 6 ≠ "" then jsParseFloat (getV values 6) else none
    flatPrice :=
      if pricingModel = "FLAT" ∧ getV values 7 ≠ "" then jsParseFloat (getV values 7) else none
    minimumUI := some (jsParseIntOrZero (getV values 8))
    maximumUI :=
      if getV values 9 ≠ "" then (jsParseInt (getV values 9)).map (fun z : ℤ => (z : ℚ)) else none }

/-- The addon object built by the ADDONS branch of `importFromCSV`. -/
def importAddon (values : List String) : Addon :=
  let pricingModel := getV values 2
  { id := getV values 0
    name := some (getV values 1)
    pricingModel := pricingModel
    uiRate :=
      if pricingModel = "UI" ∧ getV values 3 ≠ "" then jsParseFloat (getV values 3) else none
    flatPrice :=
      if pricingModel = "FLAT" ∧ getV values 4 ≠ "" then jsParseFloat (getV values 4) else none
    exclusiveGroup := if getV values 5 ≠ "" then some (getV values 5) else none
    mandatory := decide (jsToUpper (getV values 6) = "YES")
    hiddenFromCustomer := decide (jsToUpper (getV values 7) = "YES")
    isJobBased := decide (jsToUpper (getV values 8) = "YES")
    allowedProductTypes := if getV values 9 ≠ "" then
        some (((jsSplit ';' (getV values 9)).map jsTrimStr).filter (fun t => t ≠ "")) else none
    allowedProductLines := if getV values 10 ≠ "" then
        some (((jsSplit ';' (getV values 10)).map jsTrimStr).filter (fun t => t ≠ "")) else none
    minSize := if getV values 11 ≠ "" then jsParseFloat (getV values 11) else none
    maxSize := if getV values 12 ≠ "" then jsParseFloat (getV values 12) else none }

/-- Processing of one non-header, non-blank (already trimmed) line
under the current section. -/
def processRow : Option CsvSection → String → CatalogData → CatalogData
  | some .manufacturers, line, d =>
    let values := parseCSVLine line
    if 2 ≤ values.length then
      { d with manufacturers :=
          objSet (getV values 0) ⟨getV values 0, getV values 1⟩ d.manufacturers }
    else d
  | some .productLines, line, d =>
    let values := parseCSVLine line
    if 3 ≤ values.length then
      { d with productLines :=
          objSet (getV values 0) ⟨getV values 0, getV values 1, getV values 2⟩ d.productLines }
    else d
  | some .products, line, d =>
    let values := parseCSVLine line
    if 5 ≤ values.length then
      { d with products := objSet (importProduct values).id (importProduct values) d.products }
    else d
  | some .addons, line, d =>
    let values := parseCSVLine line
    if 4 ≤ values.length then
      { d with addons := objSet (importAddon values).id (importAddon values) d.addons }
    else d
  | none, _, d => d

/-- The line scanner of `importFromCSV`.  The source `i++; continue` on
a section header (skipping the following column-title line) is modelled
by the `skipNext` flag. -/
def importLoop : List String → Bool → Option CsvSection → CatalogData → CatalogData
  | [], _, _, d => d
  | _ :: rest, true, sec, d => importLoop rest false sec d
  | l :: rest, false, sec, d =>
    let t := jsTrimStr l
    if t = "MANUFACTURERS" then importLoop rest true (some .manufacturers) d
    else if t = "PRODUCT LINES" then importLoop rest true (some .productLines) d
    else if t = "PRODUCTS" then importLoop rest true (some .products) d
    else if t = "ADDONS" then importLoop rest true (some .addons) d
    else if t = "" then importLoop rest false sec d
    else importLoop rest false sec (processRow sec t d)

/-- `importFromCSV(content)`: trim the whole text, split on newlines,
scan. -/
def importFromCSV (content : String) : CatalogData :=
  importLoop (jsSplit '\n' (jsTrimStr content)) false none {}

/-- The catalog data whose four keyed collections hold exactly the
exported entities, keyed by id in export order. -/
def exportedCatalogData (v : Version) : CatalogData :=
  { manufacturers := v.manufacturers.map (fun m => (m.id, m))
    productLines := v.productLines.map (fun pl => (pl.id, pl))
    products := v.products.map (fun p => (p.id, p))
    addons := v.addons.map (fun a => (a.id, a)) }

/-! ## Version codec: CSV-safety (well-formedness for the round trip)

`exportAsCSV` writes raw field text between double quotes and
`parseCSVLine` strips every quote and trims every value, so the round
trip can only be exact for catalogs whose text fields contain no `"`
or newline, carry no leading/trailing whitespace, and whose numeric
fields are finite decimals (every JS number is one); `x || ''` fields
must not hold the falsy `0`/`""`, list fields must not hold `[]` or
elements containing the `;` separator, exactly one of
`uiRate`/`flatPrice` may be present (selected by the pricing model),
`minimumUI`/`maximumUI` must be integral (they are re-read with
`parseInt`), the fields `exportAsCSV` never writes (`sizeLimits`,
`allowedAddons`, legacy `type`/`productLine`) must be absent, and ids
must be distinct within a section. -/

/-- No whitespace at either edge of a character list (equivalently:
JS `trim` leaves it unchanged). -/
def noEdgeWs (l : List Char) : Bool :=
  (match l.head? with
   | some c => !(wsp c)
   | none => true) &&
  (match l.getLast? with
   | some c => !(wsp c)
   | none => true)

/-- A text field the CSV round trip preserves: no double quote, no
newline, no leading or trailing whitespace (trim-stable). -/
def SafeStr (s : String) : Prop := '"' ∉ s.data ∧ '\n' ∉ s.data ∧ noEdgeWs s.data = true

instance (s : String) : Decidable (SafeStr s) := by unfold SafeStr; infer_instance

/-- A finite-decimal rational (the value set of JS numbers). -/
def NumWF (q : ℚ) : Prop := (decimalExp q.den).isSome = true

instance (q : ℚ) : Decidable (NumWF q) := by unfold NumWF; infer_instance

/-- A required string field: present and CSV-safe. -/
def ReqStrWF : Option String → Prop
  | some s => SafeStr s
  | none => False

instance : (o : Option String) → Decidable (ReqStrWF o)
  | some s => inferInstanceAs (Decidable (SafeStr s))
  | none => inferInstanceAs (Decidable False)

/-- A required `x || ''` numeric field: present, non-zero (else it
exports as empty), finite-decimal. -/
def ReqRateWF : Option ℚ → Prop
  | some q => q ≠ 0 ∧ NumWF q
  | none => False

instance : (o : Option ℚ) → Decidable (ReqRateWF o)
  | some q => inferInstanceAs (Decidable (q ≠ 0 ∧ NumWF q))
  | none => inferInstanceAs (Decidable False)

/-- An optional `x || ''` numeric field: absent, or non-zero
finite-decimal. -/
def OptNumWF : Option ℚ → Prop
  | some q => q ≠ 0 ∧ NumWF q
  | none => True

instance : (o : Option ℚ) → Decidable (OptNumWF o)
  | some q => inferInstanceAs (Decidable (q ≠ 0 ∧ NumWF q))
  | none => inferInstanceAs (Decidable True)

/-- `minimumUI`: present and integral (re-read with `parseInt`). -/
def MinUIWF : Option ℚ → Prop
  | some m => m.den = 1
  | none => False

instance : (o : Option ℚ) → Decidable (MinUIWF o)
  | some m => inferInstanceAs (Decidable (m.den = 1))
  | none => inferInstanceAs (Decidable False)

/-- `maximumUI`: absent, or non-zero and integral. -/
def MaxUIWF : Option ℚ → Prop
  | some m => m ≠ 0 ∧ m.den = 1
  | none => True

instance : (o : Option ℚ) → Decidable (MaxUIWF o)
  | some m => inferInstanceAs (Decidable (m ≠ 0 ∧ m.den = 1))
  | none => inferInstanceAs (Decidable True)

/-- An element of a `"; "`-joined list field: non-empty, CSV-safe, and
free of the `;` separator. -/
def SafeElem (s : String) : Prop := s ≠ "" ∧ SafeStr s ∧ ';' ∉ s.data

instance (s : String) : Decidable (SafeElem s) := by unfold SafeElem; infer_instance

/-- A `"; "`-joined list field: absent, or non-empty with safe
elements (an empty list exports as `""` and re-imports as absent). -/
def OptListWF : Option (List String) → Prop
  | some l => l ≠ [] ∧ ∀ s ∈ l, SafeElem s
  | none => True

instance : (o : Option (List String)) → Decidable (OptListWF o)
  | some l => inferInstanceAs (Decidable (l ≠ [] ∧ ∀ s ∈ l, SafeElem s))
  | none => inferInstanceAs (Decidable True)

/-- `exclusiveGroup`: absent, or non-empty and CSV-safe. -/
def OptGroupWF : Option String → Prop
  | some g => g ≠ "" ∧ SafeStr g
  | none => True

instance : (o : Option String) → Decidable (OptGroupWF o)
  | some g => inferInstanceAs (Decidable (g ≠ "" ∧ SafeStr g))
  | none => inferInstanceAs (Decidable True)

/-- CSV-safety of a manufacturer. -/
def ManufacturerWF (m : Manufacturer) : Prop := SafeStr m.id ∧ SafeStr m.name

/-- CSV-safety of a product line. -/
def ProductLineWF (pl : ProductLine) : Prop :=
  SafeStr pl.id ∧ SafeStr pl.manufacturerId ∧ SafeStr pl.name

/-- CSV-safety of a product. -/
def ProductWF (p : Product) : Prop :=
  SafeStr p.id ∧ ReqStrWF p.productLineId ∧ ReqStrWF p.productType ∧
  ReqStrWF p.productTypeCode ∧ ReqStrWF p.name ∧
  p.productLine = none ∧ p.type = none ∧ p.sizeLimits = none ∧ p.allowedAddons = none ∧
  MinUIWF p.minimumUI ∧ MaxUIWF p.maximumUI ∧
  ((p.pricingModel = "UI" ∧ ReqRateWF p.uiRate ∧ p.flatPrice = none) ∨
   (p.pricingModel = "FLAT" ∧ ReqRateWF p.flatPrice ∧ p.uiRate = none))

/-- CSV-safety of an addon. -/
def AddonWF (a : Addon) : Prop :=
  SafeStr a.id ∧ ReqStrWF a.name ∧ OptGroupWF a.exclusiveGroup ∧
  OptListWF a.allowedProductTypes ∧ OptListWF a.allowedProductLines ∧
  OptNumWF a.minSize ∧ OptNumWF a.maxSize ∧
  ((a.pricingModel = "UI" ∧ ReqRateWF a.uiRate ∧ a.flatPrice = none) ∨
   (a.pricingModel = "FLAT" ∧ ReqRateWF a.flatPrice ∧ a.uiRate = none))

/-- CSV-safety of a whole catalog snapshot: safe entities, distinct ids
per section. -/
def VersionWF (v : Version) : Prop :=
  (∀ m ∈ v.manufacturers, ManufacturerWF m) ∧
  (v.manufacturers.map Manufacturer.id).Nodup ∧
  (∀ pl ∈ v.productLines, ProductLineWF pl) ∧
  (v.productLines.map ProductLine.id).Nodup ∧
  (∀ p ∈ v.products, ProductWF p) ∧
  (v.products.map Product.id).Nodup ∧
  (∀ a ∈ v.addons, AddonWF a) ∧
  (v.addons.map Addon.id).Nodup

instance (m : Manufacturer) : Decidable (ManufacturerWF m) := by
  unfold ManufacturerWF; infer_instance

instance (pl : ProductLine) : Decidable (ProductLineWF pl) := by
  unfold ProductLineWF; infer_instance

instance (p : Product) : Decidable (ProductWF p) := by
  unfold ProductWF; infer_instance

instance (a : Addon) : Decidable (AddonWF a) := by
  unfold AddonWF; infer_instance

instance (v : Version) : Decidable (VersionWF v) := by
  unfold VersionWF; infer_instance

/-- The line sequence of the exported CSV (what
`content.trim().split('\n')` recovers). -/
def exportLines (v : Version) : List String :=
  ["MANUFACTURERS", mfrColHdr] ++
    v.manufacturers.map (fun m => csvLine (manufacturerFields m)) ++ [""] ++
  ["PRODUCT LINES", plColHdr] ++
    v.productLines.map (fun pl => csvLine (productLineFields pl)) ++ [""] ++
  ["PRODUCTS", pColHdr] ++
    v.products.map (fun p => csvLine (productFields p)) ++ [""] ++
  ["ADDONS", aColHdr] ++
    v.addons.map (fun a => csvLine (addonFields a))

/-- The inner text of a CSV record: fields separated by the
three-character `","` boundary. -/
def renderInner : List String → List Char
  | [] => []
  | [f] => f.data
  | f :: rest => f.data ++ '"' :: ',' :: '"' :: renderInner rest

/-- The exported text as newline-terminated lines. -/
def joinNlL : List (List Char) → List Char
  | [] => []
  | x :: xs => x ++ '\n' :: joinNlL xs

/-- Character-list interleaving with a separator character. -/
def interL (sep : Char) : List (List Char) → List Char
  | [] => []
  | [x] => x
  | x :: xs => x ++ sep :: interL sep xs

/-! ## Concrete data for witnesses and counterexamples -/

/-- `addonId` resolves to a known addon that `isAddonAllowed` accepts at
the raw `ui` and that declares the truthy exclusive group `g`. -/
def acceptedWithGroup (product : Product) (ui : ℚ) (allAddons : List (String × Addon))
    (addonId g : String) : Prop :=
  ∃ a, objGet addonId allAddons = some a ∧ isAddonAllowed a product ui = true ∧
    jsStrTruthy a.exclusiveGroup = some g

/-- The raw (un-clamped) united-inches value as a rational. -/
def rawUIQ (w h : ℚ) : ℚ := ((calculateUI w h : ℤ) : ℚ)

/-- The clamped `effectiveUI = Math.max(ui, product.minimumUI || 0)`. -/
def effectiveUIOf (product : Product) (w h : ℚ) : ℚ :=
  max (rawUIQ w h) (jsOrNum product.minimumUI 0)

/-- Concrete product for the C2 witness: `minimumUI = 60`, actual UI 50. -/
def c2Product : Product :=
  { id := "p2", pricingModel := "UI", uiRate := some 10, minimumUI := some 60 }

/-- Concrete addon for the C2 witness: `minSize = 55` means it is
rejected at the raw UI 50 (although the clamped 60 would pass). -/
def c2Addon : Addon :=
  { id := "tempered", name := some "Tempered", pricingModel := "UI",
    uiRate := some 2, minSize := some 55 }

/-- The line item the C2 witness run produces. -/
def c2Res : LineItem :=
  { ui := 60, basePrice := 600, addonTotal := 0, lineItemParTotal := 600, appliedAddons := [] }

/-- Concrete product for the C3 witness. -/
def c3Product : Product :=
  { id := "p3", pricingModel := "UI", uiRate := some 10, allowedAddons := some ["grids"] }

/-- Concrete mandatory addon for the C3 witness. -/
def c3Addon : Addon :=
  { id := "grids", name := some "Grids", pricingModel := "FLAT",
    flatPrice := some 25, mandatory := true }

/-- The line item the C3 witness run produces: the mandatory addon was
not selected yet is applied and priced. -/
def c3Res : LineItem :=
  { ui := 50, basePrice := 500, addonTotal := 25, lineItemParTotal := 525,
    appliedAddons := [{ id := "grids", name := some "Grids", price := 25, hidden := false }] }

/-- Concrete product for the C4 witness. -/
def c4Product : Product := { id := "p4", pricingModel := "UI", uiRate := some 10 }

/-- First `glass`-group addon for the C4 witness. -/
def c4A1 : Addon :=
  { id := "g1", name := some "Glass A", pricingModel := "FLAT", flatPrice := some 5,
    exclusiveGroup := some "glass" }

/-- Second `glass`-group addon for the C4 witness. -/
def c4A2 : Addon :=
  { id := "g2", name := some "Glass B", pricingModel := "FLAT", flatPrice := some 7,
    exclusiveGroup := some "glass" }

/-- Addon catalog for the C4 witness. -/
def c4All : List (String × Addon) := [("g1", c4A1), ("g2", c4A2)]

/-- Counterexample to C6 as stated: a FLAT product with a selected,
eligible addon whose `pricingModel` is the unknown value `CUSTOM` does
not fail — the run succeeds and silently prices the addon at `0`
(the addon-price `if/else if` chain has no throwing `else`). -/
def c6Product : Product := { id := "p6", pricingModel := "FLAT", flatPrice := some 100 }

/-- The unknown-model addon for the C6 counterexample. -/
def c6Addon : Addon := { id := "w1", name := some "Weird", pricingModel := "CUSTOM" }

/-- The line item the C6 counterexample run produces. -/
def c6Res : LineItem :=
  { ui := 2, basePrice := 100, addonTotal := 0, lineItemParTotal := 100,
    appliedAddons := [{ id := "w1", name := some "Weird", price := 0, hidden := false }] }

/-- Counterexample to C5 as stated: with `salesUplift = 0` and a
job-based addon priced `-5`, the claim demands a successful result with
`finalPrice = -5`, but `calculateQuote` throws the price-floor error. -/
def c5Job : JobAddon := { price := some (-5) }

/-- Concrete line item for the C5 witness. -/
def c5Item : LineItem :=
  { ui := 50, basePrice := 500, addonTotal := 0, lineItemParTotal := 500, appliedAddons := [] }

/-- Concrete line item for the C7 witness. -/
def c7Item : LineItem :=
  { ui := 50, basePrice := 500, addonTotal := 0, lineItemParTotal := 500, appliedAddons := [] }

/-- The quote totals of the C7 witness run. -/
def c7Quote : QuoteTotals :=
  { totalParPrice := 500, jobAddonTotal := 0, jobBasedAddons := [], salesUplift := 3,
    finalPrice := 503 }

/-- Counterexample product for C9: `maxWidth` is present but `0`. -/
def c9Product : Product := { id := "p9", sizeLimits := some { maxWidth := some 0 } }

/-- Witness product for C9 (amended): two simultaneous violations. -/
def c9WProduct : Product :=
  { id := "p9w", minimumUI := some 20,
    sizeLimits := some { minWidth := some 10, maxHeight := some 40 } }

/-- A concrete well-formed catalog for the C1 witness: fractional
rates, a comma inside a field, list fields and all three flags. -/
def c1Good : Version :=
  { manufacturers := [⟨"m1", "Andersen"⟩, ⟨"m2", "Pella"⟩]
    productLines := [⟨"pl1", "m1", "400 Series"⟩]
    products := [{ id := "p1", productLineId := some "pl1", productType := some "Window",
                   productTypeCode := some "SH", name := some "Single Hung",
                   pricingModel := "UI", uiRate := some (5/2), minimumUI := some 20,
                   maximumUI := some 120 },
                 { id := "p2", productLineId := some "pl1", productType := some "Door",
                   productTypeCode := some "DR", name := some "Front, Door",
                   pricingModel := "FLAT", flatPrice := some 350, minimumUI := some 0 }]
    addons := [{ id := "a1", name := some "Grids", pricingModel := "FLAT",
                 flatPrice := some 25, mandatory := true, exclusiveGroup := some "glass",
                 allowedProductTypes := some ["Window", "Door"],
                 minSize := some (1/20), maxSize := some 21 },
               { id := "a2", name := some "Install", pricingModel := "UI",
                 uiRate := some (3/4), isJobBased := true, hiddenFromCustomer := true }] }

/-- A catalog the raw claim fails on: the manufacturer name holds a
double quote, which the re-import strips. -/
def c1Bad : Version := { manufacturers := [⟨"m1", "a\"b"⟩] }

/-! ## Engine lemmas -/

/-- Membership in the JS-Set deduplication. -/
theorem dedupGo_mem (x : String) : ∀ (l seen : List String),
    x ∈ dedupGo seen l ↔ x ∈ l ∧ x ∉ seen := by
  intro l
  induction l with
  | nil => intro seen; simp [dedupGo]
  | cons y rest ih =>
    intro seen
    by_cases hy : y ∈ seen
    · simp only [dedupGo, if_pos hy, ih, List.mem_cons]
      constructor
      · rintro ⟨hr, hns⟩
        exact ⟨Or.inr hr, hns⟩
      · rintro ⟨rfl | hr, hns⟩
        · exact absurd hy hns
        · exact ⟨hr, hns⟩
    · simp only [dedupGo, if_neg hy, List.mem_cons, ih, not_or]
      constructor
      · rintro (rfl | ⟨hr, _, hns⟩)
        · exact ⟨Or.inl rfl, hy⟩
        · exact ⟨Or.inr hr, hns⟩
      · rintro ⟨rfl | hr, hns⟩
        · exact Or.inl rfl
        · by_cases hxy : x = y
          · exact Or.inl hxy
          · exact Or.inr ⟨hr, hxy, hns⟩

/-- The JS-Set deduplication produces no duplicates. -/
theorem dedupGo_nodup : ∀ (l seen : List String), (dedupGo seen l).Nodup := by
  intro l
  induction l with
  | nil => intro seen; simp [dedupGo]
  | cons y rest ih =>
    intro seen
    by_cases hy : y ∈ seen
    · simpa only [dedupGo, if_pos hy] using ih seen
    · simp only [dedupGo, if_neg hy]
      refine List.nodup_cons.mpr ⟨fun hc => ?_, ih (y :: seen)⟩
      have := (dedupGo_mem y rest (y :: seen)).mp hc
      exact this.2 (List.mem_cons_self y seen)

/-- Every successful `processAddons` run appends entries that come from
known, allowed addons in the processed id list, priced at
`addonPriceOf · effectiveUI`, and accumulates exactly their prices. -/
theorem processAddons_ok_spec (product : Product) (ui effUI : ℚ)
    (allAddons : List (String × Addon)) :
    ∀ (ids : List String) (applied : List AppliedAddon) (groups : List String) (total : ℚ)
      (applied₂ : List AppliedAddon) (total₂ : ℚ),
      processAddons product ui effUI allAddons ids applied groups total = .ok (applied₂, total₂) →
      ∃ extra, applied₂ = applied ++ extra ∧
        total₂ = total + (extra.map AppliedAddon.price).sum ∧
        ∀ e ∈ extra, e.id ∈ ids ∧ ∃ a, objGet e.id allAddons = some a ∧
          isAddonAllowed a product ui = true ∧ e.price = addonPriceOf a effUI ∧
          e.name = a.name ∧ e.hidden = a.hiddenFromCustomer := by
  intro ids
  induction ids with
  | nil =>
    intro applied groups total applied₂ total₂ h
    simp only [processAddons, Except.ok.injEq, Prod.mk.injEq] at h
    exact ⟨[], by simp [h.1, h.2]⟩
  | cons z rest ih =>
    intro applied groups total applied₂ total₂ h
    cases hz : objGet z allAddons with
    | none =>
      simp only [processAddons, hz] at h
      obtain ⟨extra, he, ht, hprop⟩ := ih applied groups total applied₂ total₂ h
      exact ⟨extra, he, ht, fun e hmem =>
        ⟨List.mem_cons_of_mem _ (hprop e hmem).1, (hprop e hmem).2⟩⟩
    | some addon =>
      simp only [processAddons, hz] at h
      by_cases hall : isAddonAllowed addon product ui = true
      · rw [if_pos hall] at h
        cases hg : jsStrTruthy addon.exclusiveGroup with
        | some g =>
          simp only [hg] at h
          by_cases hgrp : g ∈ groups
          · rw [if_pos hgrp] at h; exact absurd h (by simp)
          · rw [if_neg hgrp] at h
            obtain ⟨extra, he, ht, hprop⟩ := ih _ _ _ applied₂ total₂ h
            refine ⟨⟨z, addon.name, addonPriceOf addon effUI, addon.hiddenFromCustomer⟩ :: extra,
              by simpa using he, by simpa [add_assoc] using ht, ?_⟩
            intro e hmem2
            rcases List.mem_cons.mp hmem2 with rfl | hmem2
            · exact ⟨List.mem_cons_self _ _, addon, hz, hall, rfl, rfl, rfl⟩
            · exact ⟨List.mem_cons_of_mem _ (hprop e hmem2).1, (hprop e hmem2).2⟩
        | none =>
          simp only [hg] at h
          obtain ⟨extra, he, ht, hprop⟩ := ih _ _ _ applied₂ total₂ h
          refine ⟨⟨z, addon.name, addonPriceOf addon effUI, addon.hiddenFromCustomer⟩ :: extra,
            by simpa using he, by simpa [add_assoc] using ht, ?_⟩
          intro e hmem2
          rcases List.mem_cons.mp hmem2 with rfl | hmem2
          · exact ⟨List.mem_cons_self _ _, addon, hz, hall, rfl, rfl, rfl⟩
          · exact ⟨List.mem_cons_of_mem _ (hprop e hmem2).1, (hprop e hmem2).2⟩
      · rw [if_neg hall] at h
        obtain ⟨extra, he, ht, hprop⟩ := ih applied groups total applied₂ total₂ h
        exact ⟨extra, he, ht, fun e hmem =>
          ⟨List.mem_cons_of_mem _ (hprop e hmem).1, (hprop e hmem).2⟩⟩

/-- A known, allowed addon id in the processed list contributes an entry
to any successful run. -/
theorem processAddons_mem_applied (product : Product) (ui effUI : ℚ)
    (allAddons : List (String × Addon)) :
    ∀ (ids : List String) (applied : List AppliedAddon) (groups : List String) (total : ℚ)
      (applied₂ : List AppliedAddon) (total₂ : ℚ) (addonId : String) (a : Addon),
      addonId ∈ ids → objGet addonId allAddons = some a →
      isAddonAllowed a product ui = true →
      processAddons product ui effUI allAddons ids applied groups total = .ok (applied₂, total₂) →
      ∃ e, e ∈ applied₂ ∧ e.id = addonId ∧ e.price = addonPriceOf a effUI := by
  intro ids
  induction ids with
  | nil => intro _ _ _ _ _ _ _ hmem _ _ _; exact absurd hmem (List.not_mem_nil _)
  | cons z rest ih =>
    intro applied groups total applied₂ total₂ addonId a hmem ha hallow h
    cases hz : objGet z allAddons with
    | none =>
      simp only [processAddons, hz] at h
      rcases List.mem_cons.mp hmem with rfl | hmem2
      · rw [hz] at ha; exact absurd ha (by simp)
      · exact ih applied groups total applied₂ total₂ addonId a hmem2 ha hallow h
    | some addon =>
      simp only [processAddons, hz] at h
      by_cases hall : isAddonAllowed addon product ui = true
      · rw [if_pos hall] at h
        cases hg : jsStrTruthy addon.exclusiveGroup with
        | some g =>
          simp only [hg] at h
          by_cases hgrp : g ∈ groups
          · rw [if_pos hgrp] at h; exact absurd h (by simp)
          · rw [if_neg hgrp] at h
            rcases List.mem_cons.mp hmem with rfl | hmem2
            · have haddon : addon = a := by rw [hz] at ha; exact (Option.some.injEq _ _ ▸ ha)
              subst haddon
              obtain ⟨extra, he, -, -⟩ :=
                processAddons_ok_spec product ui effUI allAddons rest _ _ _ applied₂ total₂ h
              refine ⟨⟨addonId, addon.name, addonPriceOf addon effUI, addon.hiddenFromCustomer⟩,
                ?_, rfl, rfl⟩
              rw [he]
              exact List.mem_append_left _ (List.mem_append_right _ (List.mem_singleton_self _))
            · exact ih _ _ _ applied₂ total₂ addonId a hmem2 ha hallow h
        | none =>
          simp only [hg] at h
          rcases List.mem_cons.mp hmem with rfl | hmem2
          · have haddon : addon = a := by rw [hz] at ha; exact (Option.some.injEq _ _ ▸ ha)
            subst haddon
            obtain ⟨extra, he, -, -⟩ :=
              processAddons_ok_spec product ui effUI allAddons rest _ _ _ applied₂ total₂ h
            refine ⟨⟨addonId, addon.name, addonPriceOf addon effUI, addon.hiddenFromCustomer⟩,
              ?_, rfl, rfl⟩
            rw [he]
            exact List.mem_append_left _ (List.mem_append_right _ (List.mem_singleton_self _))
          · exact ih _ _ _ applied₂ total₂ addonId a hmem2 ha hallow h
      · rw [if_neg hall] at h
        rcases List.mem_cons.mp hmem with rfl | hmem2
        · have haddon : addon = a := by rw [hz] at ha; exact (Option.some.injEq _ _ ▸ ha)
          subst haddon
          exact absurd hallow hall
        · exact ih applied groups total applied₂ total₂ addonId a hmem2 ha hallow h

/-- If an accepted addon in the list declares a group that is already
used, the loop throws an exclusive-group conflict. -/
theorem processAddons_conflict_of_groups (product : Product) (ui effUI : ℚ)
    (allAddons : List (String × Addon)) :
    ∀ (ids : List String) (applied : List AppliedAddon) (groups : List String) (total : ℚ)
      (addonId g : String),
      addonId ∈ ids → acceptedWithGroup product ui allAddons addonId g → g ∈ groups →
      ∃ g₂, processAddons product ui effUI allAddons ids applied groups total =
        .error (.exclusiveGroupConflict g₂) := by
  intro ids
  induction ids with
  | nil => intro _ _ _ _ _ hmem _ _; exact absurd hmem (List.not_mem_nil _)
  | cons z rest ih =>
    intro applied groups total addonId g hmem hacc hgrps
    obtain ⟨a, ha, hallow, hga⟩ := hacc
    cases hz : objGet z allAddons with
    | none =>
      simp only [processAddons, hz]
      rcases List.mem_cons.mp hmem with rfl | hmem2
      · rw [hz] at ha; exact absurd ha (by simp)
      · exact ih applied groups total addonId g hmem2 ⟨a, ha, hallow, hga⟩ hgrps
    | some addon =>
      simp only [processAddons, hz]
      by_cases hall : isAddonAllowed addon product ui = true
      · rw [if_pos hall]
        cases hg : jsStrTruthy addon.exclusiveGroup with
        | some gz =>
          dsimp only
          by_cases hgrp : gz ∈ groups
          · rw [if_pos hgrp]; exact ⟨gz, rfl⟩
          · rw [if_neg hgrp]
            rcases List.mem_cons.mp hmem with rfl | hmem2
            · have haddon : addon = a := by rw [hz] at ha; exact (Option.some.injEq _ _ ▸ ha)
              subst haddon
              rw [hg] at hga
              have : gz = g := Option.some.injEq _ _ ▸ hga
              subst this
              exact absurd hgrps hgrp
            · exact ih _ _ _ addonId g hmem2 ⟨a, ha, hallow, hga⟩
                (List.mem_cons_of_mem _ hgrps)
        | none =>
          dsimp only
          rcases List.mem_cons.mp hmem with rfl | hmem2
          · have haddon : addon = a := by rw [hz] at ha; exact (Option.some.injEq _ _ ▸ ha)
            subst haddon
            rw [hg] at hga
            exact absurd hga (by simp)
          · exact ih _ _ _ addonId g hmem2 ⟨a, ha, hallow, hga⟩ hgrps
      · rw [if_neg hall]
        rcases List.mem_cons.mp hmem with rfl | hmem2
        · have haddon : addon = a := by rw [hz] at ha; exact (Option.some.injEq _ _ ▸ ha)
          subst haddon
          exact absurd hallow hall
        · exact ih applied groups total addonId g hmem2 ⟨a, ha, hallow, hga⟩ hgrps

/-- Two distinct accepted addons sharing a truthy exclusive group make
the loop throw an exclusive-group conflict. -/
theorem processAddons_conflict_pair (product : Product) (ui effUI : ℚ)
    (allAddons : List (String × Addon)) :
    ∀ (ids : List String) (applied : List AppliedAddon) (groups : List String) (total : ℚ)
      (aId bId g : String),
      aId ∈ ids → bId ∈ ids → aId ≠ bId →
      acceptedWithGroup product ui allAddons aId g →
      acceptedWithGroup product ui allAddons bId g →
      ∃ g₂, processAddons product ui effUI allAddons ids applied groups total =
        .error (.exclusiveGroupConflict g₂) := by
  intro ids
  induction ids with
  | nil => intro _ _ _ _ _ _ hmem _ _ _ _; exact absurd hmem (List.not_mem_nil _)
  | cons z rest ih =>
    intro applied groups total aId bId g hma hmb hne hacca haccb
    obtain ⟨a, ha, hallowa, hga⟩ := hacca
    obtain ⟨b, hb, hallowb, hgb⟩ := haccb
    cases hz : objGet z allAddons with
    | none =>
      simp only [processAddons, hz]
      have hma2 : aId ∈ rest := by
        rcases List.mem_cons.mp hma with rfl | hx
        · rw [hz] at ha; exact absurd ha (by simp)
        · exact hx
      have hmb2 : bId ∈ rest := by
        rcases List.mem_cons.mp hmb with rfl | hx
        · rw [hz] at hb; exact absurd hb (by simp)
        · exact hx
      exact ih applied groups total aId bId g hma2 hmb2 hne
        ⟨a, ha, hallowa, hga⟩ ⟨b, hb, hallowb, hgb⟩
    | some addon =>
      simp only [processAddons, hz]
      by_cases hall : isAddonAllowed addon product ui = true
      · rw [if_pos hall]
        cases hg : jsStrTruthy addon.exclusiveGroup with
        | some gz =>
          dsimp only
          by_cases hgrp : gz ∈ groups
          · rw [if_pos hgrp]; exact ⟨gz, rfl⟩
          · rw [if_neg hgrp]
            by_cases hza : z = aId
            · subst hza
              have haddon : addon = a := by rw [hz] at ha; exact (Option.some.injEq _ _ ▸ ha)
              subst haddon
              rw [hg] at hga
              have hgzg : gz = g := Option.some.injEq _ _ ▸ hga
              subst hgzg
              have hmb2 : bId ∈ rest := by
                rcases List.mem_cons.mp hmb with h2 | hx
                · exact absurd h2.symm hne
                · exact hx
              exact processAddons_conflict_of_groups product ui effUI allAddons rest _ _ _
                bId gz hmb2 ⟨b, hb, hallowb, hgb⟩ (List.mem_cons_self _ _)
            · by_cases hzb : z = bId
              · subst hzb
                have haddon : addon = b := by rw [hz] at hb; exact (Option.some.injEq _ _ ▸ hb)
                subst haddon
                rw [hg] at hgb
                have hgzg : gz = g := Option.some.injEq _ _ ▸ hgb
                subst hgzg
                have hma2 : aId ∈ rest := by
                  rcases List.mem_cons.mp hma with h2 | hx
                  · exact absurd h2.symm hza
                  · exact hx
                exact processAddons_conflict_of_groups product ui effUI allAddons rest _ _ _
                  aId gz hma2 ⟨a, ha, hallowa, hga⟩ (List.mem_cons_self _ _)
              · have hma2 : aId ∈ rest := by
                  rcases List.mem_cons.mp hma with h2 | hx
                  · exact absurd h2.symm hza
                  · exact hx
                have hmb2 : bId ∈ rest := by
                  rcases List.mem_cons.mp hmb with h2 | hx
                  · exact absurd h2.symm hzb
                  · exact hx
                exact ih _ _ _ aId bId g hma2 hmb2 hne
                  ⟨a, ha, hallowa, hga⟩ ⟨b, hb, hallowb, hgb⟩
        | none =>
          dsimp only
          have hma2 : aId ∈ rest := by
            rcases List.mem_cons.mp hma with rfl | hx
            · have haddon : addon = a := by rw [hz] at ha; exact (Option.some.injEq _ _ ▸ ha)
              subst haddon
              rw [hg] at hga
              exact absurd hga (by simp)
            · exact hx
          have hmb2 : bId ∈ rest := by
            rcases List.mem_cons.mp hmb with rfl | hx
            · have haddon : addon = b := by rw [hz] at hb; exact (Option.some.injEq _ _ ▸ hb)
              subst haddon
              rw [hg] at hgb
              exact absurd hgb (by simp)
            · exact hx
          exact ih _ _ _ aId bId g hma2 hmb2 hne
            ⟨a, ha, hallowa, hga⟩ ⟨b, hb, hallowb, hgb⟩
      · rw [if_neg hall]
        have hma2 : aId ∈ rest := by
          rcases List.mem_cons.mp hma with rfl | hx
          · have haddon : addon = a := by rw [hz] at ha; exact (Option.some.injEq _ _ ▸ ha)
            subst haddon
            exact absurd hallowa hall
          · exact hx
        have hmb2 : bId ∈ rest := by
          rcases List.mem_cons.mp hmb with rfl | hx
          · have haddon : addon = b := by rw [hz] at hb; exact (Option.some.injEq _ _ ▸ hb)
            subst haddon
            exact absurd hallowb hall
          · exact hx
        exact ih applied groups total aId bId g hma2 hmb2 hne
          ⟨a, ha, hallowa, hga⟩ ⟨b, hb, hallowb, hgb⟩

/-- The group named by an exclusive-group-conflict error is the truthy
group of two distinct accepted addons of the processed (duplicate-free)
list, unless it was already in the accumulator. -/
theorem processAddons_conflict_source (product : Product) (ui effUI : ℚ)
    (allAddons : List (String × Addon)) :
    ∀ (ids : List String) (applied : List AppliedAddon) (groups : List String) (total : ℚ)
      (g₂ : String), ids.Nodup →
      processAddons product ui effUI allAddons ids applied groups total =
        .error (.exclusiveGroupConflict g₂) →
      ∃ c, c ∈ ids ∧ acceptedWithGroup product ui allAddons c g₂ ∧
        (g₂ ∈ groups ∨ ∃ d, d ∈ ids ∧ d ≠ c ∧ acceptedWithGroup product ui allAddons d g₂) := by
  intro ids
  induction ids with
  | nil =>
    intro applied groups total g₂ _ h
    simp only [processAddons] at h
    exact absurd h (by simp)
  | cons z rest ih =>
    intro applied groups total g₂ hnodup h
    have hznr : z ∉ rest := (List.nodup_cons.mp hnodup).1
    have hnodup2 : rest.Nodup := (List.nodup_cons.mp hnodup).2
    cases hz : objGet z allAddons with
    | none =>
      simp only [processAddons, hz] at h
      obtain ⟨c, hc, hacc, hrest⟩ := ih applied groups total g₂ hnodup2 h
      refine ⟨c, List.mem_cons_of_mem _ hc, hacc, ?_⟩
      rcases hrest with hg | ⟨d, hd, hdc, haccd⟩
      · exact Or.inl hg
      · exact Or.inr ⟨d, List.mem_cons_of_mem _ hd, hdc, haccd⟩
    | some addon =>
      simp only [processAddons, hz] at h
      by_cases hall : isAddonAllowed addon product ui = true
      · rw [if_pos hall] at h
        cases hg : jsStrTruthy addon.exclusiveGroup with
        | some gz =>
          simp only [hg] at h
          by_cases hgrp : gz ∈ groups
          · rw [if_pos hgrp] at h
            have hgg : gz = g₂ := by
              have := (Except.error.injEq _ _).mp h
              exact (PricingError.exclusiveGroupConflict.injEq _ _).mp this
            subst hgg
            exact ⟨z, List.mem_cons_self _ _, ⟨addon, hz, hall, hg⟩, Or.inl hgrp⟩
          · rw [if_neg hgrp] at h
            obtain ⟨c, hc, hacc, hrest⟩ := ih _ _ _ g₂ hnodup2 h
            rcases hrest with hgin | ⟨d, hd, hdc, haccd⟩
            · rcases List.mem_cons.mp hgin with rfl | hgin2
              · refine ⟨c, List.mem_cons_of_mem _ hc, hacc, Or.inr ⟨z, List.mem_cons_self _ _,
                  fun hzc => hznr (hzc ▸ hc), ⟨addon, hz, hall, hg⟩⟩⟩
              · exact ⟨c, List.mem_cons_of_mem _ hc, hacc, Or.inl hgin2⟩
            · exact ⟨c, List.mem_cons_of_mem _ hc, hacc,
                Or.inr ⟨d, List.mem_cons_of_mem _ hd, hdc, haccd⟩⟩
        | none =>
          simp only [hg] at h
          obtain ⟨c, hc, hacc, hrest⟩ := ih _ _ _ g₂ hnodup2 h
          refine ⟨c, List.mem_cons_of_mem _ hc, hacc, ?_⟩
          rcases hrest with hgin | ⟨d, hd, hdc, haccd⟩
          · exact Or.inl hgin
          · exact Or.inr ⟨d, List.mem_cons_of_mem _ hd, hdc, haccd⟩
      · rw [if_neg hall] at h
        obtain ⟨c, hc, hacc, hrest⟩ := ih applied groups total g₂ hnodup2 h
        refine ⟨c, List.mem_cons_of_mem _ hc, hacc, ?_⟩
        rcases hrest with hgin | ⟨d, hd, hdc, haccd⟩
        · exact Or.inl hgin
        · exact Or.inr ⟨d, List.mem_cons_of_mem _ hd, hdc, haccd⟩

/-- Folding `+` over a list is adding its mapped sum. -/
theorem foldl_add_map_sum (f : α → ℚ) : ∀ (l : List α) (c : ℚ),
    l.foldl (fun s x => s + f x) c = c + (l.map f).sum := by
  intro l
  induction l with
  | nil => intro c; simp
  | cons x rest ih =>
    intro c
    simp only [List.foldl_cons, List.map_cons, List.sum_cons, ih (c + f x)]
    ring

/-- Decomposition of a successful `calculateLineItem` run into its
base-price computation and addon loop. -/
theorem calculateLineItem_ok_cases (product : Product) (w h : ℚ) (sel : List String)
    (all : List (String × Addon)) (res : LineItem)
    (hres : calculateLineItem product w h sel all = .ok res) :
    basePriceOf product (effectiveUIOf product w h) = .ok res.basePrice ∧
    res.ui = effectiveUIOf product w h ∧
    processAddons product (rawUIQ w h) (effectiveUIOf product w h) all
      (appliedCandidateIds product sel all) [] [] 0 = .ok (res.appliedAddons, res.addonTotal) ∧
    res.lineItemParTotal = res.basePrice + res.addonTotal := by
  simp only [calculateLineItem] at hres
  cases hb : basePriceOf product (max ((calculateUI w h : ℤ) : ℚ) (jsOrNum product.minimumUI 0)) with
  | error e => rw [hb] at hres; simp at hres
  | ok basePrice =>
    rw [hb] at hres
    dsimp only at hres
    cases hp : processAddons product ((calculateUI w h : ℤ) : ℚ)
        (max ((calculateUI w h : ℤ) : ℚ) (jsOrNum product.minimumUI 0)) all
        (appliedCandidateIds product sel all) [] [] 0 with
    | error e => rw [hp] at hres; simp at hres
    | ok pair =>
      rw [hp] at hres
      obtain ⟨applied, total⟩ := pair
      dsimp only at hres
      have hr := (Except.ok.injEq _ _).mp hres
      subst hr
      exact ⟨hb, rfl, hp, rfl⟩

/-- Claim C8: `calculateUI` equals `ceil(width + height)`, is an integer
(its result type is `ℤ`), is non-negative for non-negative dimensions,
and is monotone in each argument. -/
theorem calculateUI_spec (w h : ℚ) (hw : 0 ≤ w) (hh : 0 ≤ h) :
    calculateUI w h = ⌈w + h⌉ ∧ 0 ≤ calculateUI w h ∧
    (∀ w₂, w ≤ w₂ → calculateUI w h ≤ calculateUI w₂ h) ∧
    (∀ h₂, h ≤ h₂ → calculateUI w h ≤ calculateUI w h₂) := by
  refine ⟨rfl, Int.ceil_nonneg (add_nonneg hw hh),
    fun w₂ hw₂ => Int.ceil_le_ceil (by linarith),
    fun h₂ hh₂ => Int.ceil_le_ceil (by linarith)⟩

/-- Witness for C8 at `width = 30`, `height = 20`. -/
theorem calculateUI_spec_witness :
    calculateUI 30 20 = ⌈(30 : ℚ) + 20⌉ ∧ 0 ≤ calculateUI 30 20 :=
  ⟨(calculateUI_spec 30 20 (by norm_num) (by norm_num)).1,
   (calculateUI_spec 30 20 (by norm_num) (by norm_num)).2.1⟩

/-- Claim C2: `calculateLineItem` clamps `effectiveUI = max(ui,
minimumUI or 0)` and uses it for the returned `ui`, for the UI-model
base price and for UI-model addon prices, while `isAddonAllowed` is
consulted with the raw un-clamped `ui` (an addon rejected at the raw
`ui` never appears in `appliedAddons`). -/
theorem calculateLineItem_effectiveUI_spec (product : Product) (w h : ℚ)
    (sel : List String) (all : List (String × Addon)) (r : ℚ) (res : LineItem)
    (hmodel : product.pricingModel = "UI") (hrate : product.uiRate = some r)
    (hres : calculateLineItem product w h sel all = .ok res) :
    res.ui = effectiveUIOf product w h ∧
    res.basePrice = effectiveUIOf product w h * r ∧
    (∀ e ∈ res.appliedAddons, ∀ a r₂, objGet e.id all = some a →
      a.pricingModel = "UI" → a.uiRate = some r₂ →
      e.price = effectiveUIOf product w h * r₂) ∧
    (∀ addonId a, objGet addonId all = some a →
      isAddonAllowed a product (rawUIQ w h) = false →
      ∀ e ∈ res.appliedAddons, e.id ≠ addonId) := by
  obtain ⟨hbase, hui, hproc, -⟩ := calculateLineItem_ok_cases product w h sel all res hres
  have hextra := processAddons_ok_spec product (rawUIQ w h) (effectiveUIOf product w h) all
    (appliedCandidateIds product sel all) [] [] 0 res.appliedAddons res.addonTotal hproc
  obtain ⟨extra, he, -, hprop⟩ := hextra
  have hex : extra = res.appliedAddons := by simpa using he.symm
  subst hex
  refine ⟨hui, ?_, ?_, ?_⟩
  · simp only [basePriceOf, hmodel, if_pos rfl, hrate] at hbase
    have := (Except.ok.injEq _ _).mp hbase
    simp [← this, Option.getD]
  · intro e hmem a r₂ ha hma hr₂
    obtain ⟨-, a₂, ha₂, -, hprice, -, -⟩ := hprop e hmem
    rw [ha] at ha₂
    have haa : a = a₂ := by
      have := (Option.some.injEq _ _).mp ha₂
      exact this
    subst haa
    rw [hprice]
    simp [addonPriceOf, hma, hr₂]
  · intro addonId a ha hnotallowed e hmem heq
    obtain ⟨-, a₂, ha₂, hall₂, -, -, -⟩ := hprop e hmem
    rw [heq] at ha₂
    rw [ha] at ha₂
    have haa : a = a₂ := (Option.some.injEq _ _).mp ha₂
    subst haa
    rw [hnotallowed] at hall₂
    exact Bool.false_ne_true hall₂

/-- Witness for C2: with `minimumUI = 60` and `width+height = 50` the
returned `ui` is 60 and the base price is `60 × 10`, while the selected
`minSize = 55` addon was rejected at the raw 50. -/
theorem calculateLineItem_effectiveUI_spec_witness :
    calculateLineItem c2Product 30 20 ["tempered"] [("tempered", c2Addon)] = .ok c2Res ∧
    c2Res.ui = effectiveUIOf c2Product 30 20 ∧
    c2Res.basePrice = effectiveUIOf c2Product 30 20 * 10 := by
  have hres : calculateLineItem c2Product 30 20 ["tempered"] [("tempered", c2Addon)] = .ok c2Res := by
    with_unfolding_all decide
  exact ⟨hres,
    (calculateLineItem_effectiveUI_spec c2Product 30 20 ["tempered"] [("tempered", c2Addon)]
      10 c2Res rfl rfl hres).1,
    (calculateLineItem_effectiveUI_spec c2Product 30 20 ["tempered"] [("tempered", c2Addon)]
      10 c2Res rfl rfl hres).2.1⟩

/-- Claim C3: every addon of `product.allowedAddons` whose catalog entry
is flagged `mandatory` is in the applied candidate set even when not
selected, and — when `isAddonAllowed` accepts it — appears in
`appliedAddons` of a successful run with its price counted in
`addonTotal` (which always equals the sum of applied prices). -/
theorem calculateLineItem_mandatory_spec (product : Product) (w h : ℚ)
    (sel : List String) (all : List (String × Addon)) (aId : String) (a : Addon)
    (lst : List String) (res : LineItem)
    (hlst : product.allowedAddons = some lst) (hmem : aId ∈ lst)
    (ha : objGet aId all = some a) (hmand : a.mandatory = true)
    (hallow : isAddonAllowed a product (rawUIQ w h) = true)
    (hres : calculateLineItem product w h sel all = .ok res) :
    aId ∈ appliedCandidateIds product sel all ∧
    (∃ e, e ∈ res.appliedAddons ∧ e.id = aId ∧
      e.price = addonPriceOf a (effectiveUIOf product w h)) ∧
    res.addonTotal = (res.appliedAddons.map AppliedAddon.price).sum := by
  have hmemMand : aId ∈ mandatoryAddonIds product all := by
    simp only [mandatoryAddonIds, hlst, Option.getD_some, List.mem_filter]
    exact ⟨hmem, by rw [ha]; exact hmand⟩
  have hmemCand : aId ∈ appliedCandidateIds product sel all := by
    rw [appliedCandidateIds, dedupGo_mem]
    exact ⟨List.mem_append_left _ hmemMand, List.not_mem_nil _⟩
  obtain ⟨-, -, hproc, -⟩ := calculateLineItem_ok_cases product w h sel all res hres
  refine ⟨hmemCand, ?_, ?_⟩
  · exact processAddons_mem_applied product (rawUIQ w h) (effectiveUIOf product w h) all
      (appliedCandidateIds product sel all) [] [] 0 res.appliedAddons res.addonTotal
      aId a hmemCand ha hallow hproc
  · obtain ⟨extra, he, ht, -⟩ := processAddons_ok_spec product (rawUIQ w h)
      (effectiveUIOf product w h) all (appliedCandidateIds product sel all) [] [] 0
      res.appliedAddons res.addonTotal hproc
    have hex : extra = res.appliedAddons := by simpa using he.symm
    subst hex
    simpa using ht

/-- Witness for C3: `selectedAddonIds = []`, yet the mandatory addon
appears in `appliedAddons` and its 25 is in `addonTotal`. -/
theorem calculateLineItem_mandatory_spec_witness :
    calculateLineItem c3Product 30 20 [] [("grids", c3Addon)] = .ok c3Res ∧
    (∃ e, e ∈ c3Res.appliedAddons ∧ e.id = "grids" ∧
      e.price = addonPriceOf c3Addon (effectiveUIOf c3Product 30 20)) ∧
    c3Res.addonTotal = (c3Res.appliedAddons.map AppliedAddon.price).sum := by
  have hres : calculateLineItem c3Product 30 20 [] [("grids", c3Addon)] = .ok c3Res := by
    with_unfolding_all decide
  have hmain := calculateLineItem_mandatory_spec c3Product 30 20 [] [("grids", c3Addon)]
    "grids" c3Addon ["grids"] c3Res rfl (List.mem_singleton_self _) rfl rfl
    (by with_unfolding_all decide) hres
  exact ⟨hres, hmain.2.1, hmain.2.2⟩

/-- Claim C4: two distinct candidate addons that are both accepted
(known and allowed at the raw `ui`) and declare the same truthy
`exclusiveGroup` make `calculateLineItem` fail with an
exclusive-group-conflict error, and the group the error names is itself
shared by two distinct accepted candidates.  Because the run returns
`Except.error`, no (partial) `LineItem` is produced. -/
theorem calculateLineItem_conflict_spec (product : Product) (w h : ℚ)
    (sel : List String) (all : List (String × Addon)) (aId bId g : String) (a b : Addon)
    (hmodel : product.pricingModel = "UI" ∨ product.pricingModel = "FLAT")
    (hne : aId ≠ bId)
    (hma : aId ∈ appliedCandidateIds product sel all)
    (hmb : bId ∈ appliedCandidateIds product sel all)
    (ha : objGet aId all = some a) (hb : objGet bId all = some b)
    (hallowa : isAddonAllowed a product (rawUIQ w h) = true)
    (hallowb : isAddonAllowed b product (rawUIQ w h) = true)
    (hga : jsStrTruthy a.exclusiveGroup = some g)
    (hgb : jsStrTruthy b.exclusiveGroup = some g) :
    ∃ g₂, calculateLineItem product w h sel all = .error (.exclusiveGroupConflict g₂) ∧
      ∃ c d, c ≠ d ∧ c ∈ appliedCandidateIds product sel all ∧
        d ∈ appliedCandidateIds product sel all ∧
        acceptedWithGroup product (rawUIQ w h) all c g₂ ∧
        acceptedWithGroup product (rawUIQ w h) all d g₂ := by
  obtain ⟨g₂, hconf⟩ := processAddons_conflict_pair product (rawUIQ w h)
    (effectiveUIOf product w h) all (appliedCandidateIds product sel all) [] [] 0
    aId bId g hma hmb hne ⟨a, ha, hallowa, hga⟩ ⟨b, hb, hallowb, hgb⟩
  have hnodup : (appliedCandidateIds product sel all).Nodup := dedupGo_nodup _ _
  obtain ⟨c, hc, hacc, hsrc⟩ := processAddons_conflict_source product (rawUIQ w h)
    (effectiveUIOf product w h) all (appliedCandidateIds product sel all) [] [] 0
    g₂ hnodup hconf
  have hconf2 : processAddons product ((calculateUI w h : ℤ) : ℚ)
      (max ((calculateUI w h : ℤ) : ℚ) (jsOrNum product.minimumUI 0)) all
      (appliedCandidateIds product sel all) [] [] 0 =
      .error (.exclusiveGroupConflict g₂) := hconf
  have hcalc : calculateLineItem product w h sel all = .error (.exclusiveGroupConflict g₂) := by
    rcases hmodel with hm | hm
    · simp only [calculateLineItem, basePriceOf, hm, if_pos rfl, if_true]
      rw [hconf2]
    · simp only [calculateLineItem, basePriceOf, hm, if_true]
      rw [hconf2]
      rfl
  rcases hsrc with hgin | ⟨d, hd, hdc, haccd⟩
  · exact absurd hgin (List.not_mem_nil _)
  · exact ⟨g₂, hcalc, c, d, fun hcd => hdc hcd.symm, hc, hd, hacc, haccd⟩

/-- Witness for C4: selecting both `glass` addons aborts the line item
with an exclusive-group-conflict error. -/
theorem calculateLineItem_conflict_spec_witness :
    ∃ g₂, calculateLineItem c4Product 30 20 ["g1", "g2"] c4All =
      .error (.exclusiveGroupConflict g₂) := by
  obtain ⟨g₂, hg, -⟩ := calculateLineItem_conflict_spec c4Product 30 20 ["g1", "g2"] c4All
    "g1" "g2" "glass" c4A1 c4A2 (Or.inl rfl) (by decide)
    (by with_unfolding_all decide) (by with_unfolding_all decide)
    (by with_unfolding_all decide) (by with_unfolding_all decide)
    (by with_unfolding_all decide) (by with_unfolding_all decide)
    (by with_unfolding_all decide) (by with_unfolding_all decide)
  exact ⟨g₂, hg⟩

/-- C6 counterexample: the claim demands an InvalidConfiguration error
for the unknown addon `pricingModel`, but the computation succeeds. -/
theorem calculateLineItem_unknown_addon_model_counterexample :
    calculateLineItem c6Product 1 1 ["w1"] [("w1", c6Addon)] = .ok c6Res := by
  with_unfolding_all decide

/-- Claim C6 (amended): `calculateLineItem` fails with
`InvalidConfiguration` exactly for an unknown *product* `pricingModel`;
an applied addon with an unknown `pricingModel` does not fail — it is
silently priced at `0`. -/
theorem calculateLineItem_invalidConfiguration_spec :
    (∀ (product : Product) (w h : ℚ) (sel : List String) (all : List (String × Addon)),
      product.pricingModel ≠ "UI" → product.pricingModel ≠ "FLAT" →
      calculateLineItem product w h sel all =
        .error (.invalidConfiguration product.pricingModel)) ∧
    (∀ (product : Product) (w h : ℚ) (sel : List String) (all : List (String × Addon))
      (res : LineItem), calculateLineItem product w h sel all = .ok res →
      ∀ e ∈ res.appliedAddons, ∀ a, objGet e.id all = some a →
        a.pricingModel ≠ "UI" → a.pricingModel ≠ "FLAT" → e.price = 0) := by
  constructor
  · intro product w h sel all h1 h2
    simp only [calculateLineItem, basePriceOf, if_neg h1, if_neg h2]
  · intro product w h sel all res hres e hmem a ha h1 h2
    obtain ⟨-, -, hproc, -⟩ := calculateLineItem_ok_cases product w h sel all res hres
    obtain ⟨extra, he, -, hprop⟩ := processAddons_ok_spec product (rawUIQ w h)
      (effectiveUIOf product w h) all (appliedCandidateIds product sel all) [] [] 0
      res.appliedAddons res.addonTotal hproc
    have hex : extra = res.appliedAddons := by simpa using he.symm
    subst hex
    obtain ⟨-, a₂, ha₂, -, hprice, -, -⟩ := hprop e hmem
    rw [ha] at ha₂
    have haa : a = a₂ := (Option.some.injEq _ _).mp ha₂
    subst haa
    rw [hprice]
    simp [addonPriceOf, h1, h2]

/-- Witness for C6 (amended): an unknown *product* model does error,
and the C6 counterexample addon entry is priced `0`. -/
theorem calculateLineItem_invalidConfiguration_spec_witness :
    calculateLineItem { id := "pw", pricingModel := "BOGUS" } 1 1 [] [] =
      .error (.invalidConfiguration "BOGUS") ∧
    ({ id := "w1", name := some "Weird", price := 0, hidden := false } : AppliedAddon).price = 0 := by
  constructor
  · exact calculateLineItem_invalidConfiguration_spec.1
      { id := "pw", pricingModel := "BOGUS" } 1 1 [] [] (by decide) (by decide)
  · exact calculateLineItem_invalidConfiguration_spec.2 c6Product 1 1 ["w1"] [("w1", c6Addon)]
      c6Res (by with_unfolding_all decide)
      { id := "w1", name := some "Weird", price := 0, hidden := false }
      (by with_unfolding_all decide) c6Addon (by with_unfolding_all decide)
      (by decide) (by decide)

/-- C5 counterexample run. -/
theorem calculateQuote_negative_job_addon_counterexample :
    calculateQuote [] [c5Job] 0 = .error .priceFloorViolation := by
  with_unfolding_all decide

/-- Characterization of a non-throwing `calculateQuote` run (helper
shared by the quote-level claims). -/
theorem calculateQuote_ok_char (lineItems : List LineItem) (jobs : List JobAddon) (uplift : ℚ)
    (h1 : 0 ≤ uplift) (h2 : 0 ≤ (jobs.map (fun j => jsOrNum j.price 0)).sum + uplift) :
    calculateQuote lineItems jobs uplift = .ok
      { totalParPrice := (lineItems.map LineItem.lineItemParTotal).sum,
        jobAddonTotal := (jobs.map (fun j => jsOrNum j.price 0)).sum,
        jobBasedAddons := jobs,
        salesUplift := uplift,
        finalPrice := (lineItems.map LineItem.lineItemParTotal).sum +
          (jobs.map (fun j => jsOrNum j.price 0)).sum + uplift } := by
  have hpar := foldl_add_map_sum LineItem.lineItemParTotal lineItems 0
  have hjob := foldl_add_map_sum (fun j => jsOrNum j.price 0) jobs 0
  simp only [calculateQuote, if_neg (not_lt.mpr h1), hpar, hjob, zero_add]
  rw [if_neg (by linarith)]

/-- Claim C5 (amended): `calculateQuote` fails with `NegativeUplift`
whenever `salesUplift < 0`, regardless of the line items; otherwise —
provided the job-addon total plus the uplift is non-negative, since a
negative total would instead trip the price-floor guard — it returns
`totalParPrice = Σ lineItemParTotal`, `jobAddonTotal = Σ (price || 0)`
and `finalPrice = totalParPrice + jobAddonTotal + salesUplift`. -/
theorem calculateQuote_spec (lineItems : List LineItem) (jobs : List JobAddon) (uplift : ℚ) :
    (uplift < 0 → calculateQuote lineItems jobs uplift = .error .negativeUplift) ∧
    (0 ≤ uplift → 0 ≤ (jobs.map (fun j => jsOrNum j.price 0)).sum + uplift →
      calculateQuote lineItems jobs uplift = .ok
        { totalParPrice := (lineItems.map LineItem.lineItemParTotal).sum,
          jobAddonTotal := (jobs.map (fun j => jsOrNum j.price 0)).sum,
          jobBasedAddons := jobs,
          salesUplift := uplift,
          finalPrice := (lineItems.map LineItem.lineItemParTotal).sum +
            (jobs.map (fun j => jsOrNum j.price 0)).sum + uplift }) := by
  constructor
  · intro hneg
    simp [calculateQuote, if_pos hneg]
  · intro h1 h2
    exact calculateQuote_ok_char lineItems jobs uplift h1 h2

/-- Witness for C5 (amended): a well-behaved quote evaluates to the
three sums. -/
theorem calculateQuote_spec_witness :
    calculateQuote [c5Item] [{ price := some 7 }] 2 = .ok
      { totalParPrice := ([c5Item].map LineItem.lineItemParTotal).sum,
        jobAddonTotal := ([({ price := some 7 } : JobAddon)].map (fun j => jsOrNum j.price 0)).sum,
        jobBasedAddons := [{ price := some 7 }],
        salesUplift := 2,
        finalPrice := ([c5Item].map LineItem.lineItemParTotal).sum +
          ([({ price := some 7 } : JobAddon)].map (fun j => jsOrNum j.price 0)).sum + 2 } :=
  (calculateQuote_spec [c5Item] [{ price := some 7 }] 2).2
    (by norm_num) (by with_unfolding_all decide)

/-- Claim C10: the price-floor branch of `calculateQuote` is reachable —
with `salesUplift = 0` and a job-based addon priced `-3` it throws the
price-floor error instead of returning — and it is unreachable exactly
under the extra assumption (nowhere enforced upstream) that every
job-based addon price is non-negative. -/
theorem calculateQuote_priceFloor_reachable :
    calculateQuote [] [{ price := some (-3) }] 0 = .error .priceFloorViolation ∧
    (∀ (lineItems : List LineItem) (jobs : List JobAddon) (uplift : ℚ),
      0 ≤ uplift → (∀ j ∈ jobs, 0 ≤ jsOrNum j.price 0) →
      calculateQuote lineItems jobs uplift ≠ .error .priceFloorViolation) := by
  constructor
  · with_unfolding_all decide
  · intro lineItems jobs uplift h1 h2 hc
    have hjob := foldl_add_map_sum (fun j => jsOrNum j.price 0) jobs 0
    have hsum : 0 ≤ (jobs.map (fun j => jsOrNum j.price 0)).sum :=
      List.sum_nonneg (by
        intro x hx
        obtain ⟨j, hj, rfl⟩ := List.mem_map.mp hx
        exact h2 j hj)
    have := calculateQuote_ok_char lineItems jobs uplift h1 (by linarith)
    rw [this] at hc
    exact absurd hc (by simp)

/-- Witness for C10 (for the universally quantified conjunct): a quote
with only non-negative job addon prices never trips the price floor. -/
theorem calculateQuote_priceFloor_reachable_witness :
    calculateQuote [] [{ price := some 4 }] 0 ≠ .error .priceFloorViolation :=
  calculateQuote_priceFloor_reachable.2 [] [{ price := some 4 }] 0 (le_refl 0)
    (by intro j hj; rcases List.mem_singleton.mp hj with rfl; with_unfolding_all decide)

/-- The modelled JSON deep clone is the identity on line-item data
(plain JSON-safe values), so the snapshot captures the value of
`lineItems` at creation time, independent of any later mutation of the
caller's array. -/
theorem deepCloneLineItems_id (L : List LineItem) : deepCloneLineItems L = L := by
  have h1 : ∀ l : List AppliedAddon, l.map deepCloneAppliedAddon = l := by
    intro l
    induction l with
    | nil => rfl
    | cons a rest ih => simp only [List.map_cons, ih]; rfl
  have h2 : ∀ li : LineItem, deepCloneLineItem li = li := by
    intro li
    simp only [deepCloneLineItem, h1]
  unfold deepCloneLineItems
  induction L with
  | nil => rfl
  | cons li rest ih => simp only [List.map_cons, ih, h2]

/-- Claim C7: `createQuoteVersion` returns a `locked` version whose
totals are those of `calculateQuote` on the same inputs and whose
`lineItems` field is the (deep-copied) value of the input list; two
calls at different clock instants agree on `finalPrice`,
`totalParPrice` and `lineItems` (only `id`/`timestamp` differ). -/
theorem createQuoteVersion_spec (quoteId : String) (L : List LineItem) (u : ℚ)
    (m : List (String × String)) (n₁ n₂ : ℕ) (ts₁ ts₂ : String) (q : QuoteTotals)
    (hq : calculateQuote L [] u = .ok q) :
    ∃ v₁ v₂, createQuoteVersion quoteId L u m n₁ ts₁ = .ok v₁ ∧
      createQuoteVersion quoteId L u m n₂ ts₂ = .ok v₂ ∧
      v₁.locked = true ∧ v₁.totalParPrice = q.totalParPrice ∧
      v₁.salesUplift = q.salesUplift ∧ v₁.finalPrice = q.finalPrice ∧
      v₁.lineItems = deepCloneLineItems L ∧ v₁.lineItems = L ∧
      v₂.finalPrice = v₁.finalPrice ∧ v₂.totalParPrice = v₁.totalParPrice ∧
      v₂.lineItems = v₁.lineItems := by
  have hclone := deepCloneLineItems_id L
  simp only [createQuoteVersion, hq]
  exact ⟨_, _, rfl, rfl, rfl, rfl, rfl, rfl, rfl, hclone, rfl, rfl, rfl⟩

/-- Witness for C7 at two distinct clock instants. -/
theorem createQuoteVersion_spec_witness :
    ∃ v₁ v₂, createQuoteVersion "Q1" [c7Item] 3 [] 1000 "t1" = .ok v₁ ∧
      createQuoteVersion "Q1" [c7Item] 3 [] 2000 "t2" = .ok v₂ ∧
      v₁.locked = true ∧ v₁.totalParPrice = c7Quote.totalParPrice ∧
      v₁.salesUplift = c7Quote.salesUplift ∧ v₁.finalPrice = c7Quote.finalPrice ∧
      v₁.lineItems = deepCloneLineItems [c7Item] ∧ v₁.lineItems = [c7Item] ∧
      v₂.finalPrice = v₁.finalPrice ∧ v₂.totalParPrice = v₁.totalParPrice ∧
      v₂.lineItems = v₁.lineItems :=
  createQuoteVersion_spec "Q1" [c7Item] 3 [] 1000 2000 "t1" "t2" c7Quote
    (by with_unfolding_all decide)

/-- C9 counterexample: `maxWidth = 0` is present and `width = 5`
exceeds it, so the claim demands a reported violation with
`valid = false`; the JS truthiness guard (`limits.maxWidth && ...`)
skips the zero bound, and the result is fully valid with no errors. -/
theorem validateSize_zero_limit_counterexample :
    validateSize c9Product 5 1 = { valid := true, errors := [] } := by
  with_unfolding_all decide

/-- Claim C9 (amended): `validateSize`/`validateUI` check each bound
that is present *and non-zero* (JS truthiness), report every applicable
violation — membership below covers all six constraints — and return
`valid = true` exactly when the violation list is empty. -/
theorem validate_all_violations_spec (product : Product) (width height ui : ℚ) :
    ((validateSize product width height).valid = true ↔
      (validateSize product width height).errors = []) ∧
    ((validateUI product ui).valid = true ↔ (validateUI product ui).errors = []) ∧
    (∀ L m, product.sizeLimits = some L → L.minWidth = some m → m ≠ 0 → width < m →
      ("Width must be at least " ++ jsNumToString m ++ "\"") ∈
        (validateSize product width height).errors) ∧
    (∀ L m, product.sizeLimits = some L → L.maxWidth = some m → m ≠ 0 → m < width →
      ("Width cannot exceed " ++ jsNumToString m ++ "\"") ∈
        (validateSize product width height).errors) ∧
    (∀ L m, product.sizeLimits = some L → L.minHeight = some m → m ≠ 0 → height < m →
      ("Height must be at least " ++ jsNumToString m ++ "\"") ∈
        (validateSize product width height).errors) ∧
    (∀ L m, product.sizeLimits = some L → L.maxHeight = some m → m ≠ 0 → m < height →
      ("Height cannot exceed " ++ jsNumToString m ++ "\"") ∈
        (validateSize product width height).errors) ∧
    (∀ m, product.minimumUI = some m → m ≠ 0 → ui < m →
      ("UI must be at least " ++ jsNumToString m) ∈ (validateUI product ui).errors) ∧
    (∀ m, product.maximumUI = some m → m ≠ 0 → m < ui →
      ("UI cannot exceed " ++ jsNumToString m) ∈ (validateUI product ui).errors) := by
  refine ⟨?_, ?_, ?_, ?_, ?_, ?_, ?_, ?_⟩
  · cases hsl : product.sizeLimits with
    | none => simp [validateSize, hsl]
    | some L => simp [validateSize, hsl, List.isEmpty_iff]
  · simp [validateUI, List.isEmpty_iff]
  · intro L m hsl hm hm0 hlt
    simp [validateSize, hsl, hm, hm0, hlt]
  · intro L m hsl hm hm0 hlt
    simp [validateSize, hsl, hm, hm0, hlt]
  · intro L m hsl hm hm0 hlt
    simp [validateSize, hsl, hm, hm0, hlt]
  · intro L m hsl hm hm0 hlt
    simp [validateSize, hsl, hm, hm0, hlt]
  · intro m hm hm0 hlt
    simp [validateUI, hm, hm0, hlt]
  · intro m hm hm0 hlt
    simp [validateUI, hm, hm0, hlt]

/-- Witness for C9 (amended): both the `minWidth` and the `maxHeight`
violations are reported at once (two error strings, not one), and a
`validateUI` violation is reported as well. -/
theorem validate_all_violations_spec_witness :
    ("Width must be at least " ++ jsNumToString 10 ++ "\"") ∈
      (validateSize c9WProduct 5 50).errors ∧
    ("Height cannot exceed " ++ jsNumToString 40 ++ "\"") ∈
      (validateSize c9WProduct 5 50).errors ∧
    ("UI must be at least " ++ jsNumToString 20) ∈ (validateUI c9WProduct 10).errors := by
  refine ⟨?_, ?_, ?_⟩
  · exact (validate_all_violations_spec c9WProduct 5 50 10).2.2.1
      { minWidth := some 10, maxHeight := some 40 } 10 rfl rfl (by norm_num) (by norm_num)
  · exact (validate_all_violations_spec c9WProduct 5 50 10).2.2.2.2.2.1
      { minWidth := some 10, maxHeight := some 40 } 40 rfl rfl (by norm_num) (by norm_num)
  · exact (validate_all_violations_spec c9WProduct 5 50 10).2.2.2.2.2.2.1
      20 rfl (by norm_num) (by norm_num)

/-! ## Codec lemmas: characters, trimming, splitting -/

/-- Strings with equal character data are equal. -/
theorem strExt {a b : String} (h : a.data = b.data) : a = b := by
  cases a; cases b; exact congrArg String.mk h

/-- `jsTrimStr` acts as `trimL` on the data. -/
theorem jsTrimStr_data (s : String) : (jsTrimStr s).data = trimL s.data := rfl

/-- `dropWhile` never lengthens a list. -/
theorem dropWhile_length_le (p : Char → Bool) : ∀ l : List Char,
    (l.dropWhile p).length ≤ l.length := by
  intro l
  induction l with
  | nil => simp
  | cons c cs ih =>
    rw [List.dropWhile_cons]
    by_cases hc : p c = true
    · simp only [hc, if_true]
      exact Nat.le_succ_of_le ih
    · simp [hc]

/-- The head of a left-nonempty append. -/
theorem head?_append_left (a x : List Char) (ha : a ≠ []) : (a ++ x).head? = a.head? := by
  cases a with
  | nil => exact absurd rfl ha
  | cons c cs => rfl

/-- The last of a right-nonempty append. -/
theorem getLast?_append_right (x b : List Char) (hb : b ≠ []) :
    (x ++ b).getLast? = b.getLast? := by
  rw [← List.head?_reverse, ← List.head?_reverse, List.reverse_append]
  exact head?_append_left b.reverse x.reverse (by simpa using hb)

/-- Edge-whitespace-free lists are left-trim-stable. -/
theorem trimLeftL_of_noEdgeWs (l : List Char) (h : noEdgeWs l = true) : trimLeftL l = l := by
  unfold noEdgeWs at h
  rw [Bool.and_eq_true] at h
  cases l with
  | nil => rfl
  | cons c cs =>
    have hc : wsp c = false := by simpa using h.1
    simp [trimLeftL, List.dropWhile_cons, hc]

/-- Edge-whitespace-free lists are right-trim-stable. -/
theorem trimRightL_of_noEdgeWs (l : List Char) (h : noEdgeWs l = true) : trimRightL l = l := by
  unfold noEdgeWs at h
  rw [Bool.and_eq_true] at h
  unfold trimRightL
  cases hrev : l.reverse with
  | nil =>
    have hnil : l = [] := by simpa using congrArg List.reverse hrev
    simp [hnil]
  | cons c cs =>
    have hlast : l.getLast? = some c := by rw [← List.head?_reverse, hrev]; rfl
    have hc : wsp c = false := by
      have h2 := h.2
      rw [hlast] at h2
      simpa using h2
    have hdrop : List.dropWhile wsp (c :: cs) = c :: cs := by
      simp [List.dropWhile_cons, hc]
    rw [hdrop, ← hrev, List.reverse_reverse]

/-- Edge-whitespace-free lists are trim-stable. -/
theorem trimL_of_noEdgeWs (l : List Char) (h : noEdgeWs l = true) : trimL l = l := by
  rw [trimL, trimLeftL_of_noEdgeWs l h, trimRightL_of_noEdgeWs l h]

/-- Safe strings are `trim`-stable. -/
theorem jsTrimStr_of_safe (s : String) (h : SafeStr s) : jsTrimStr s = s :=
  strExt (by rw [jsTrimStr_data, trimL_of_noEdgeWs _ h.2.2])

/-- Dropping trailing whitespace ignores a whitespace last element. -/
theorem trimRightL_append_ws (l : List Char) (c : Char) (hc : wsp c = true) :
    trimRightL (l ++ [c]) = trimRightL l := by
  unfold trimRightL
  rw [List.reverse_append]
  simp [List.dropWhile_cons, hc]

/-- Dropping trailing whitespace does not reach past a right-trim-stable
non-empty suffix. -/
theorem trimRightL_append_stable (x r : List Char) (hr : trimRightL r = r) (hrne : r ≠ []) :
    trimRightL (x ++ r) = x ++ r := by
  have h0 : (List.dropWhile wsp r.reverse).reverse = r := hr
  have hrrev : List.dropWhile wsp r.reverse = r.reverse := by
    have h1 := congrArg List.reverse h0
    rwa [List.reverse_reverse] at h1
  unfold trimRightL
  rw [List.reverse_append]
  cases hrv : r.reverse with
  | nil => exact absurd (by simpa using congrArg List.reverse hrv) hrne
  | cons c cs =>
    rw [hrv] at hrrev
    have hc : wsp c = false := by
      cases hcc : wsp c with
      | false => rfl
      | true =>
        rw [List.dropWhile_cons, hcc] at hrrev
        simp only [if_true] at hrrev
        have hlen := congrArg List.length hrrev
        have hle := dropWhile_length_le wsp cs
        simp only [List.length_cons] at hlen
        omega
    have hshape : List.dropWhile wsp (c :: (cs ++ x.reverse)) = c :: (cs ++ x.reverse) := by
      simp [List.dropWhile_cons, hc]
    rw [List.cons_append, hshape]
    have hback : c :: (cs ++ x.reverse) = (x ++ r).reverse := by
      rw [List.reverse_append, hrv, List.cons_append]
    rw [hback, List.reverse_reverse]

/-- A whitespace head is transparent to `trimL`. -/
theorem trimL_cons_ws (c : Char) (l : List Char) (hc : wsp c = true) :
    trimL (c :: l) = trimL l := by
  simp [trimL, trimLeftL, List.dropWhile_cons, hc]

/-- Splitting never yields the empty list of pieces. -/
theorem splitOnCharL_ne_nil (sep : Char) (l : List Char) : splitOnCharL sep l ≠ [] := by
  cases l with
  | nil => simp [splitOnCharL]
  | cons c cs =>
    simp only [splitOnCharL]
    by_cases hc : c = sep
    · simp [hc]
    · simp only [if_neg hc]
      cases splitOnCharL sep cs with
      | nil => simp
      | cons t ts => simp

/-- A separator-free list splits to itself. -/
theorem splitOnCharL_of_not_mem (sep : Char) (l : List Char) (h : sep ∉ l) :
    splitOnCharL sep l = [l] := by
  induction l with
  | nil => rfl
  | cons c cs ih =>
    have hc : ¬ c = sep := fun hcc => h (hcc ▸ List.mem_cons_self c cs)
    have hcs : sep ∉ cs := fun hcc => h (List.mem_cons_of_mem c hcc)
    simp only [splitOnCharL, if_neg hc, ih hcs]

/-- Splitting an append at a separator boundary. -/
theorem splitOnCharL_append (sep : Char) (a b : List Char) (ha : sep ∉ a) :
    splitOnCharL sep (a ++ sep :: b) = a :: splitOnCharL sep b := by
  induction a with
  | nil => simp [splitOnCharL]
  | cons c cs ih =>
    have hc : ¬ c = sep := fun hcc => ha (hcc ▸ List.mem_cons_self c cs)
    have hcs : sep ∉ cs := fun hcc => ha (List.mem_cons_of_mem c hcc)
    rw [List.cons_append]
    simp only [splitOnCharL, if_neg hc, ih hcs]

/-- Splitting inverts interleaving for separator-free pieces. -/
theorem splitOnCharL_interL (sep : Char) (LD : List (List Char)) (hne : LD ≠ [])
    (h : ∀ x ∈ LD, sep ∉ x) : splitOnCharL sep (interL sep LD) = LD := by
  induction LD with
  | nil => exact absurd rfl hne
  | cons x xs ih =>
    cases xs with
    | nil =>
      simp only [interL]
      exact splitOnCharL_of_not_mem sep x (h x (List.mem_cons_self _ _))
    | cons y ys =>
      have hstep : interL sep (x :: y :: ys) = x ++ sep :: interL sep (y :: ys) := rfl
      rw [hstep, splitOnCharL_append sep x _ (h x (List.mem_cons_self _ _)),
        ih (by simp) (fun z hz => h z (List.mem_cons_of_mem _ hz))]

/-! ## Codec lemmas: decimal digits -/

/-- A digit character is never whitespace. -/
theorem wsp_eq_false_of_isDigit (c : Char) (h : c.isDigit = true) : wsp c = false := by
  cases hw : wsp c with
  | false => rfl
  | true =>
    have hcases : ((c = ' ' ∨ c = '\t') ∨ c = '\r') ∨ c = '\n' := by
      simpa [wsp, Char.isWhitespace, Bool.or_eq_true, decide_eq_true_eq] using hw
    rcases hcases with ((rfl | rfl) | rfl) | rfl <;> exact absurd h (by decide)

/-- A digit character is not one of the CSV control characters. -/
theorem isDigit_ne (c : Char) (h : c.isDigit = true) :
    c ≠ '"' ∧ c ≠ '\n' ∧ c ≠ ';' ∧ c ≠ '.' ∧ c ≠ '-' := by
  refine ⟨?_, ?_, ?_, ?_, ?_⟩ <;> intro heq <;> rw [heq] at h <;> exact absurd h (by decide)

/-- `digitChar` facts for one digit. -/
theorem digitChar_isDigit (d : Nat) (h : d < 10) : (digitChar d).isDigit = true := by
  interval_cases d <;> decide

/-- `digitVal` inverts `digitChar` on one digit. -/
theorem digitVal_digitChar (d : Nat) (h : d < 10) : digitVal (digitChar d) = d := by
  interval_cases d <;> decide

/-- Fuel irrelevance for the digit renderer. -/
theorem natToDigitsAux_congr : ∀ (n f₁ f₂ : Nat), n < f₁ → n < f₂ →
    natToDigitsAux f₁ n = natToDigitsAux f₂ n := by
  intro n
  induction n using Nat.strong_induction_on with
  | _ n ih =>
    intro f₁ f₂ h₁ h₂
    cases f₁ with
    | zero => omega
    | succ g₁ =>
      cases f₂ with
      | zero => omega
      | succ g₂ =>
        simp only [natToDigitsAux]
        by_cases h10 : n < 10
        · simp [h10]
        · have hn : 0 < n := by omega
          have hlt : n / 10 < n := Nat.div_lt_self hn (by omega)
          simp only [h10, if_false]
          rw [ih (n / 10) hlt g₁ g₂ (by omega) (by omega)]

/-- One-step unfolding of `natToDigits`. -/
theorem natToDigits_unfold (n : Nat) : natToDigits n =
    if n < 10 then [digitChar n] else natToDigits (n / 10) ++ [digitChar (n % 10)] := by
  unfold natToDigits
  rw [show natToDigitsAux (n + 1) n =
    if n < 10 then [digitChar n] else natToDigitsAux n (n / 10) ++ [digitChar (n % 10)]
    from rfl]
  by_cases h10 : n < 10
  · simp [h10]
  · have hn : 0 < n := by omega
    have hlt : n / 10 < n := Nat.div_lt_self hn (by omega)
    simp only [h10, if_false]
    rw [natToDigitsAux_congr (n / 10) n (n / 10 + 1) hlt (by omega)]

/-- The digit renderer never returns the empty list. -/
theorem natToDigits_ne_nil (n : Nat) : natToDigits n ≠ [] := by
  rw [natToDigits_unfold]
  by_cases h10 : n < 10
  · simp [h10]
  · simp [h10]

/-- Every rendered character is a digit. -/
theorem natToDigits_all_digits : ∀ n : Nat, ∀ c ∈ natToDigits n, c.isDigit = true := by
  intro n
  induction n using Nat.strong_induction_on with
  | _ n ih =>
    intro c hc
    rw [natToDigits_unfold] at hc
    by_cases h10 : n < 10
    · rw [if_pos h10] at hc
      rcases List.mem_singleton.mp hc with rfl
      exact digitChar_isDigit n h10
    · rw [if_neg h10] at hc
      rcases List.mem_append.mp hc with hmem | hmem
      · have hn : 0 < n := by omega
        exact ih (n / 10) (Nat.div_lt_self hn (by omega)) c hmem
      · rcases List.mem_singleton.mp hmem with rfl
        exact digitChar_isDigit _ (Nat.mod_lt n (by omega))

/-- Folding one more digit. -/
theorem digitsToNat_append (ds : List Char) (c : Char) :
    digitsToNat (ds ++ [c]) = 10 * digitsToNat ds + digitVal c := by
  unfold digitsToNat
  rw [List.foldl_append]
  simp [Nat.mul_comm]

/-- Parsing inverts rendering for natural numbers. -/
theorem digitsToNat_natToDigits : ∀ n : Nat, digitsToNat (natToDigits n) = n := by
  intro n
  induction n using Nat.strong_induction_on with
  | _ n ih =>
    rw [natToDigits_unfold]
    by_cases h10 : n < 10
    · rw [if_pos h10]
      show digitsToNat [digitChar n] = n
      unfold digitsToNat
      simp [digitVal_digitChar n h10]
    · rw [if_neg h10]
      have hn : 0 < n := by omega
      rw [digitsToNat_append, ih (n / 10) (Nat.div_lt_self hn (by omega)),
        digitVal_digitChar _ (Nat.mod_lt n (by omega))]
      omega

/-- Digit-count bound: below `10^k` at most `k` digits. -/
theorem natToDigits_length_le : ∀ (n k : Nat), 1 ≤ k → n < 10 ^ k →
    (natToDigits n).length ≤ k := by
  intro n
  induction n using Nat.strong_induction_on with
  | _ n ih =>
    intro k hk hlt
    rw [natToDigits_unfold]
    by_cases h10 : n < 10
    · simp [h10, hk]
    · rw [if_neg h10]
      have hn : 0 < n := by omega
      have hk2 : 2 ≤ k := by
        by_contra hc
        have hk1 : k = 1 := by omega
        rw [hk1] at hlt
        simp at hlt
        omega
      have hdiv : n / 10 < 10 ^ (k - 1) := by
        have h : n < 10 ^ k := hlt
        have hp : 10 ^ k = 10 ^ (k - 1) * 10 := by
          have hkk : k - 1 + 1 = k := by omega
          conv_lhs => rw [← hkk]
          rw [pow_succ]
        rw [hp] at h
        omega
      have := ih (n / 10) (Nat.div_lt_self hn (by omega)) (k - 1) (by omega) hdiv
      simp only [List.length_append, List.length_singleton]
      omega

/-- Leading zeros do not change the parsed value. -/
theorem digitsToNat_replicate_zero : ∀ (j : Nat) (ds : List Char),
    digitsToNat (List.replicate j '0' ++ ds) = digitsToNat ds := by
  intro j
  induction j with
  | zero => intro ds; simp
  | succ i ih =>
    intro ds
    rw [List.replicate_succ, List.cons_append]
    show digitsToNat ('0' :: (List.replicate i '0' ++ ds)) = digitsToNat ds
    unfold digitsToNat
    simp only [List.foldl_cons]
    have : (0 : ℕ) * 10 + digitVal '0' = 0 := by decide
    rw [this]
    exact ih ds

/-- The zero-padded digits parse back to the value. -/
theorem digitsToNat_padZeros (k m : Nat) : digitsToNat (padZeros k m) = m := by
  rw [padZeros, digitsToNat_replicate_zero, digitsToNat_natToDigits]

/-- The zero-padded rendering has exactly `k` digits. -/
theorem padZeros_length (k m : Nat) (hk : 1 ≤ k) (hm : m < 10 ^ k) :
    (padZeros k m).length = k := by
  have hle := natToDigits_length_le m k hk hm
  simp only [padZeros, List.length_append, List.length_replicate]
  omega

/-- Every character of the zero-padded rendering is a digit. -/
theorem padZeros_all_digits (k m : Nat) : ∀ c ∈ padZeros k m, c.isDigit = true := by
  intro c hc
  rcases List.mem_append.mp hc with hmem | hmem
  · rcases List.eq_of_mem_replicate hmem with rfl
    decide
  · exact natToDigits_all_digits m c hmem

/-! ## Codec lemmas: number parsing inverts rendering -/

/-- `takeWhile` keeps a fully satisfying list. -/
theorem takeWhile_all (p : Char → Bool) : ∀ l : List Char, (∀ c ∈ l, p c = true) →
    l.takeWhile p = l := by
  intro l
  induction l with
  | nil => intro _; rfl
  | cons c cs ih =>
    intro h
    rw [List.takeWhile_cons, h c (List.mem_cons_self _ _),
      ih (fun x hx => h x (List.mem_cons_of_mem _ hx))]
    simp

/-- `dropWhile` empties a fully satisfying list. -/
theorem dropWhile_all (p : Char → Bool) : ∀ l : List Char, (∀ c ∈ l, p c = true) →
    l.dropWhile p = [] := by
  intro l
  induction l with
  | nil => intro _; rfl
  | cons c cs ih =>
    intro h
    rw [List.dropWhile_cons]
    simp only [h c (List.mem_cons_self _ _), if_true]
    exact ih (fun x hx => h x (List.mem_cons_of_mem _ hx))

/-- `takeWhile` over an append stopping at the boundary. -/
theorem takeWhile_append_not (p : Char → Bool) (l : List Char) (c : Char) (r : List Char)
    (hall : ∀ x ∈ l, p x = true) (hc : p c = false) :
    (l ++ c :: r).takeWhile p = l := by
  induction l with
  | nil => simp [List.takeWhile_cons, hc]
  | cons x xs ih =>
    rw [List.cons_append, List.takeWhile_cons, hall x (List.mem_cons_self _ _),
      ih (fun y hy => hall y (List.mem_cons_of_mem _ hy))]
    simp

/-- `dropWhile` over an append stopping at the boundary. -/
theorem dropWhile_append_not (p : Char → Bool) (l : List Char) (c : Char) (r : List Char)
    (hall : ∀ x ∈ l, p x = true) (hc : p c = false) :
    (l ++ c :: r).dropWhile p = c :: r := by
  induction l with
  | nil => simp [List.dropWhile_cons, hc]
  | cons x xs ih =>
    rw [List.cons_append, List.dropWhile_cons]
    simp only [hall x (List.mem_cons_self _ _), if_true]
    exact ih (fun y hy => hall y (List.mem_cons_of_mem _ hy))

/-- A successful `decimalExp` witnesses divisibility into a power of
ten. -/
theorem decimalExp_dvd (d k : Nat) (h : decimalExp d = some k) : d ∣ 10 ^ k ∧ 0 < d := by
  unfold decimalExp at h
  by_cases hd : d = 2 ^ facCount 2 d * 5 ^ facCount 5 d
  · rw [if_pos hd] at h
    have hk : max (facCount 2 d) (facCount 5 d) = k := by
      simpa using h
    constructor
    · rw [hd, ← hk]
      have h10 : (10 : ℕ) ^ max (facCount 2 d) (facCount 5 d) =
          2 ^ max (facCount 2 d) (facCount 5 d) * 5 ^ max (facCount 2 d) (facCount 5 d) := by
        rw [← Nat.mul_pow]
      rw [h10]
      exact Nat.mul_dvd_mul (pow_dvd_pow 2 (le_max_left _ _)) (pow_dvd_pow 5 (le_max_right _ _))
    · rw [hd]
      positivity
  · rw [if_neg hd] at h
    exact absurd h (by simp)

/-- Parsing the unsigned decimal rendering of `nAbs / d` recovers its
value. -/
theorem parsePosFloatL_posRatToString (nAbs d k : Nat) (h : decimalExp d = some k) :
    parsePosFloatL (posRatToString nAbs d).data = some ((nAbs : ℚ) / (d : ℚ)) := by
  obtain ⟨hdvd, hdpos⟩ := decimalExp_dvd d k h
  have hmd : nAbs * (10 ^ k / d) * d = nAbs * 10 ^ k := by
    rw [Nat.mul_assoc, Nat.div_mul_cancel hdvd]
  by_cases hk : k = 0
  · subst hk
    have hd1 : d = 1 := Nat.dvd_one.mp (by simpa using hdvd)
    subst hd1
    have hstr : posRatToString nAbs 1 = String.mk (natToDigits (nAbs * (10 ^ 0 / 1))) := by
      unfold posRatToString
      rw [h]
      rfl
    have hm : nAbs * (10 ^ 0 / 1) = nAbs := by simp
    rw [hm] at hstr
    rw [hstr]
    unfold parsePosFloatL
    rw [show (String.mk (natToDigits nAbs)).data = natToDigits nAbs from rfl]
    rw [takeWhile_all Char.isDigit _ (natToDigits_all_digits nAbs),
      dropWhile_all Char.isDigit _ (natToDigits_all_digits nAbs)]
    simp only [List.isEmpty_iff]
    rw [if_neg (natToDigits_ne_nil nAbs)]
    rw [digitsToNat_natToDigits]
    simp
  · have hk1 : 1 ≤ k := by omega
    set m := nAbs * (10 ^ k / d) with hmdef
    have hstr : posRatToString nAbs d = String.mk (natToDigits (m / 10 ^ k)) ++ "." ++
        String.mk (padZeros k (m % 10 ^ k)) := by
      unfold posRatToString
      rw [h]
      dsimp only
      rw [if_neg hk]
    rw [hstr]
    have hdata : ((String.mk (natToDigits (m / 10 ^ k)) ++ "." ++
        String.mk (padZeros k (m % 10 ^ k))) : String).data =
        natToDigits (m / 10 ^ k) ++ '.' :: padZeros k (m % 10 ^ k) := by
      rw [String.data_append, String.data_append, List.append_assoc]
      rfl
    rw [hdata]
    unfold parsePosFloatL
    rw [takeWhile_append_not Char.isDigit _ '.' _ (natToDigits_all_digits _) (by decide),
      dropWhile_append_not Char.isDigit _ '.' _ (natToDigits_all_digits _) (by decide)]
    dsimp only
    rw [if_pos rfl]
    rw [takeWhile_all Char.isDigit _ (padZeros_all_digits k (m % 10 ^ k))]
    have hmod : m % 10 ^ k < 10 ^ k := Nat.mod_lt m (by positivity)
    have hlen : (padZeros k (m % 10 ^ k)).length = k := padZeros_length k _ hk1 hmod
    have hne : ¬ ((natToDigits (m / 10 ^ k)).isEmpty = true ∧
        (padZeros k (m % 10 ^ k)).isEmpty = true) := by
      intro hcontra
      have h1 := hcontra.1
      rw [List.isEmpty_iff] at h1
      exact natToDigits_ne_nil _ h1
    rw [if_neg hne]
    rw [digitsToNat_natToDigits, digitsToNat_padZeros, hlen]
    have harith : m / 10 ^ k * 10 ^ k + m % 10 ^ k = m := by
      rw [Nat.mul_comm]
      exact Nat.div_add_mod m (10 ^ k)
    have hz : ((m / 10 ^ k : ℕ) : ℤ) * 10 ^ k + ((m % 10 ^ k : ℕ) : ℤ) = (m : ℤ) := by
      exact_mod_cast harith
    rw [hz, Rat.mkRat_eq_div]
    have hb : ((10 ^ k : ℕ) : ℚ) ≠ 0 := by positivity
    have hd0 : ((d : ℕ) : ℚ) ≠ 0 := by
      simp only [ne_eq, Nat.cast_eq_zero]
      omega
    congr 1
    rw [div_eq_div_iff hb hd0]
    push_cast
    exact_mod_cast hmd

/-- A non-empty list has a last element, which is a member. -/
theorem getLast?_of_ne_nil (l : List Char) (h : l ≠ []) : ∃ c, l.getLast? = some c ∧ c ∈ l := by
  cases hrev : l.reverse with
  | nil => exact absurd (by simpa using congrArg List.reverse hrev) h
  | cons c cs =>
    refine ⟨c, by rw [← List.head?_reverse, hrev]; rfl, ?_⟩
    have : c ∈ l.reverse := by rw [hrev]; exact List.mem_cons_self _ _
    exact List.mem_reverse.mp this

/-- The zero-padded digit list is non-empty. -/
theorem padZeros_ne_nil (k m : Nat) : padZeros k m ≠ [] := by
  unfold padZeros
  intro hcontra
  rcases List.append_eq_nil.mp hcontra with ⟨-, h2⟩
  exact natToDigits_ne_nil m h2

/-- The unsigned rendering starts with a digit. -/
theorem posRatToString_head (nAbs d : Nat) :
    ∃ c cs, (posRatToString nAbs d).data = c :: cs ∧ c.isDigit = true := by
  unfold posRatToString
  cases hde : decimalExp d with
  | some k =>
    dsimp only
    by_cases hk : k = 0
    · subst hk
      rw [if_pos rfl]
      cases hnd : natToDigits (nAbs * (10 ^ 0 / d)) with
      | nil => exact absurd hnd (natToDigits_ne_nil _)
      | cons c cs =>
        exact ⟨c, cs, rfl, natToDigits_all_digits _ c
            (by rw [hnd]; exact List.mem_cons_self _ _)⟩
    · rw [if_neg hk]
      cases hnd : natToDigits (nAbs * (10 ^ k / d) / 10 ^ k) with
      | nil => exact absurd hnd (natToDigits_ne_nil _)
      | cons c cs =>
        refine ⟨c, cs ++ '.' :: padZeros k (nAbs * (10 ^ k / d) % 10 ^ k), ?_, ?_⟩
        · rw [String.data_append, String.data_append, List.append_assoc]
          rfl
        · exact natToDigits_all_digits _ c (by rw [hnd]; exact List.mem_cons_self _ _)
  | none =>
    dsimp only
    cases hnd : natToDigits nAbs with
    | nil => exact absurd hnd (natToDigits_ne_nil _)
    | cons c cs =>
      refine ⟨c, cs ++ '/' :: natToDigits d, ?_, ?_⟩
      · rw [String.data_append, String.data_append, List.append_assoc]
        rfl
      · exact natToDigits_all_digits _ c (by rw [hnd]; exact List.mem_cons_self _ _)

/-- The unsigned rendering ends with a digit. -/
theorem posRatToString_last (nAbs d : Nat) :
    ∃ c, (posRatToString nAbs d).data.getLast? = some c ∧ c.isDigit = true := by
  unfold posRatToString
  cases hde : decimalExp d with
  | some k =>
    dsimp only
    by_cases hk : k = 0
    · subst hk
      rw [if_pos rfl]
      obtain ⟨c, hc, hmem⟩ := getLast?_of_ne_nil (natToDigits (nAbs * (10 ^ 0 / d)))
        (natToDigits_ne_nil _)
      exact ⟨c, hc, natToDigits_all_digits _ c hmem⟩
    · rw [if_neg hk]
      obtain ⟨c, hc, hmem⟩ := getLast?_of_ne_nil (padZeros k (nAbs * (10 ^ k / d) % 10 ^ k))
        (padZeros_ne_nil _ _)
      refine ⟨c, ?_, padZeros_all_digits _ _ c hmem⟩
      rw [String.data_append, String.data_append]
      rw [getLast?_append_right _ _ (padZeros_ne_nil _ _)]
      exact hc
  | none =>
    dsimp only
    obtain ⟨c, hc, hmem⟩ := getLast?_of_ne_nil (natToDigits d) (natToDigits_ne_nil _)
    refine ⟨c, ?_, natToDigits_all_digits _ c hmem⟩
    rw [String.data_append, String.data_append]
    rw [getLast?_append_right _ _ (natToDigits_ne_nil _)]
    exact hc

/-- Every character of the unsigned rendering is a digit, `.` or `/`. -/
theorem posRatToString_chars (nAbs d : Nat) :
    ∀ c ∈ (posRatToString nAbs d).data, c.isDigit = true ∨ c = '.' ∨ c = '/' := by
  intro c hc
  unfold posRatToString at hc
  revert hc
  cases hde : decimalExp d with
  | some k =>
    dsimp only
    by_cases hk : k = 0
    · subst hk
      rw [if_pos rfl]
      intro hc
      exact Or.inl (natToDigits_all_digits _ c hc)
    · rw [if_neg hk]
      intro hc
      rw [String.data_append, String.data_append, List.append_assoc] at hc
      rcases List.mem_append.mp hc with hmem | hmem
      · exact Or.inl (natToDigits_all_digits _ c hmem)
      · rcases List.mem_append.mp hmem with hmem2 | hmem2
        · rcases List.mem_singleton.mp hmem2 with rfl
          exact Or.inr (Or.inl rfl)
        · exact Or.inl (padZeros_all_digits _ _ c hmem2)
  | none =>
    dsimp only
    intro hc
    rw [String.data_append, String.data_append, List.append_assoc] at hc
    rcases List.mem_append.mp hc with hmem | hmem
    · exact Or.inl (natToDigits_all_digits _ c hmem)
    · rcases List.mem_append.mp hmem with hmem2 | hmem2
      · rcases List.mem_singleton.mp hmem2 with rfl
        exact Or.inr (Or.inr rfl)
      · exact Or.inl (natToDigits_all_digits _ c hmem2)

/-- Every character of the JS number rendering is a digit, `.`, `/` or
the sign. -/
theorem jsNumToString_chars (q : ℚ) :
    ∀ c ∈ (jsNumToString q).data, c.isDigit = true ∨ c = '.' ∨ c = '/' ∨ c = '-' := by
  intro c hc
  unfold jsNumToString at hc
  by_cases hneg : q.num < 0
  · rw [if_pos hneg, String.data_append] at hc
    rcases List.mem_append.mp hc with hmem | hmem
    · rcases List.mem_singleton.mp hmem with rfl
      exact Or.inr (Or.inr (Or.inr rfl))
    · rcases posRatToString_chars q.num.natAbs q.den c hmem with h | h | h
      · exact Or.inl h
      · exact Or.inr (Or.inl h)
      · exact Or.inr (Or.inr (Or.inl h))
  · rw [if_neg hneg] at hc
    rcases posRatToString_chars q.num.natAbs q.den c hc with h | h | h
    · exact Or.inl h
    · exact Or.inr (Or.inl h)
    · exact Or.inr (Or.inr (Or.inl h))

/-- The JS number rendering is a CSV-safe field. -/
theorem safeStr_jsNumToString (q : ℚ) : SafeStr (jsNumToString q) := by
  refine ⟨?_, ?_, ?_⟩
  · intro hmem
    rcases jsNumToString_chars q '"' hmem with h | h | h | h
    · exact absurd h (by decide)
    all_goals exact absurd h (by decide)
  · intro hmem
    rcases jsNumToString_chars q '\n' hmem with h | h | h | h
    · exact absurd h (by decide)
    all_goals exact absurd h (by decide)
  · unfold noEdgeWs
    rw [Bool.and_eq_true]
    constructor
    · unfold jsNumToString
      by_cases hneg : q.num < 0
      · rw [if_pos hneg, String.data_append]
        rw [head?_append_left _ _ (by decide)]
        decide
      · rw [if_neg hneg]
        obtain ⟨c, cs, hdata, hdig⟩ := posRatToString_head q.num.natAbs q.den
        rw [hdata]
        simp [wsp_eq_false_of_isDigit c hdig]
    · unfold jsNumToString
      by_cases hneg : q.num < 0
      · rw [if_pos hneg, String.data_append]
        obtain ⟨c, cs, hdata, hdig⟩ := posRatToString_head q.num.natAbs q.den
        rw [getLast?_append_right _ _ (by rw [hdata]; simp)]
        obtain ⟨cl, hcl, hcldig⟩ := posRatToString_last q.num.natAbs q.den
        rw [hcl]
        simp [wsp_eq_false_of_isDigit cl hcldig]
      · rw [if_neg hneg]
        obtain ⟨cl, hcl, hcldig⟩ := posRatToString_last q.num.natAbs q.den
        rw [hcl]
        simp [wsp_eq_false_of_isDigit cl hcldig]

/-- A string with non-empty data is not the empty string. -/
theorem ne_empty_of_data (s : String) (h : s.data ≠ []) : s ≠ "" :=
  fun hc => h (by rw [hc])

/-- The JS number rendering is never empty. -/
theorem jsNumToString_ne_empty (q : ℚ) : jsNumToString q ≠ "" := by
  apply ne_empty_of_data
  unfold jsNumToString
  by_cases hneg : q.num < 0
  · rw [if_pos hneg, String.data_append]
    simp [String.data]
  · rw [if_neg hneg]
    obtain ⟨c, cs, hdata, -⟩ := posRatToString_head q.num.natAbs q.den
    rw [hdata]
    simp

/-! ## Codec lemmas: signed numeric round trips -/

/-- Cast of `natAbs` for a non-negative integer. -/
theorem natAbs_cast_nonneg (z : ℤ) (h : 0 ≤ z) : ((z.natAbs : ℕ) : ℚ) = (z : ℚ) := by
  have h1 : (z.natAbs : ℤ) = z := by omega
  have h2 : ((z.natAbs : ℕ) : ℚ) = ((z.natAbs : ℤ) : ℚ) := (Int.cast_natCast z.natAbs).symm
  rw [h2, h1]

/-- Cast of `natAbs` for a negative integer. -/
theorem natAbs_cast_neg (z : ℤ) (h : z < 0) : ((z.natAbs : ℕ) : ℚ) = -(z : ℚ) := by
  have h1 : (z.natAbs : ℤ) = -z := by omega
  have h2 : ((z.natAbs : ℕ) : ℚ) = ((z.natAbs : ℤ) : ℚ) := (Int.cast_natCast z.natAbs).symm
  rw [h2, h1, Int.cast_neg]

/-- An integral rational is the cast of its numerator. -/
theorem ratCast_num_of_den_one (q : ℚ) (h : q.den = 1) : ((q.num : ℤ) : ℚ) = q := by
  conv_rhs => rw [← Rat.num_div_den q]
  rw [h]
  simp

/-- `parseFloat` inverts the JS number rendering on every
finite-decimal rational. -/
theorem jsParseFloat_jsNumToString (q : ℚ) (h : NumWF q) :
    jsParseFloat (jsNumToString q) = some q := by
  unfold NumWF at h
  rw [Option.isSome_iff_exists] at h
  obtain ⟨k, hk⟩ := h
  by_cases hneg : q.num < 0
  · have hstr : jsNumToString q = "-" ++ posRatToString q.num.natAbs q.den := by
      unfold jsNumToString
      rw [if_pos hneg]
    rw [hstr]
    unfold jsParseFloat
    have hdata : (("-" ++ posRatToString q.num.natAbs q.den) : String).data
        = '-' :: (posRatToString q.num.natAbs q.den).data := by
      rw [String.data_append]
      rfl
    rw [hdata]
    dsimp only
    rw [if_pos rfl]
    rw [parsePosFloatL_posRatToString q.num.natAbs q.den k hk]
    rw [Option.map_some']
    congr 1
    rw [natAbs_cast_neg q.num hneg, neg_div, neg_neg, Rat.num_div_den]
  · have hstr : jsNumToString q = posRatToString q.num.natAbs q.den := by
      unfold jsNumToString
      rw [if_neg hneg]
    rw [hstr]
    obtain ⟨c, cs, hdata, hdig⟩ := posRatToString_head q.num.natAbs q.den
    unfold jsParseFloat
    rw [hdata]
    dsimp only
    rw [if_neg (isDigit_ne c hdig).2.2.2.2]
    rw [← hdata, parsePosFloatL_posRatToString q.num.natAbs q.den k hk]
    congr 1
    rw [natAbs_cast_nonneg q.num (le_of_not_lt hneg), Rat.num_div_den]

/-- Integral rationals render as a bare digit string (after the sign). -/
theorem posRatToString_den_one (nAbs : Nat) :
    posRatToString nAbs 1 = String.mk (natToDigits nAbs) := by
  unfold posRatToString
  rw [show decimalExp 1 = some 0 from by decide]
  dsimp only
  rw [if_pos rfl]
  simp

/-- `parseInt` recovers the numerator of an integral rational from its
rendering. -/
theorem jsParseInt_jsNumToString (q : ℚ) (h : q.den = 1) :
    jsParseInt (jsNumToString q) = some q.num := by
  by_cases hneg : q.num < 0
  · have hstr : jsNumToString q = "-" ++ String.mk (natToDigits q.num.natAbs) := by
      unfold jsNumToString
      rw [if_pos hneg, h, posRatToString_den_one]
    rw [hstr]
    unfold jsParseInt
    have hdata : (("-" ++ String.mk (natToDigits q.num.natAbs)) : String).data
        = '-' :: natToDigits q.num.natAbs := by
      rw [String.data_append]
      rfl
    rw [hdata]
    dsimp only
    rw [if_pos rfl]
    rw [takeWhile_all Char.isDigit _ (natToDigits_all_digits _)]
    cases hnd : natToDigits q.num.natAbs with
    | nil => exact absurd hnd (natToDigits_ne_nil _)
    | cons c cs =>
      dsimp only
      rw [← hnd, digitsToNat_natToDigits]
      congr 1
      omega
  · have hstr : jsNumToString q = String.mk (natToDigits q.num.natAbs) := by
      unfold jsNumToString
      rw [if_neg hneg, h, posRatToString_den_one]
    rw [hstr]
    unfold jsParseInt
    rw [show (String.mk (natToDigits q.num.natAbs)).data = natToDigits q.num.natAbs from rfl]
    cases hnd : natToDigits q.num.natAbs with
    | nil => exact absurd hnd (natToDigits_ne_nil _)
    | cons c cs =>
      have hdig : c.isDigit = true :=
        natToDigits_all_digits _ c (by rw [hnd]; exact List.mem_cons_self _ _)
      dsimp only
      rw [if_neg (isDigit_ne c hdig).2.2.2.2]
      rw [← hnd, takeWhile_all Char.isDigit _ (natToDigits_all_digits _)]
      rw [hnd]
      dsimp only
      rw [← hnd, digitsToNat_natToDigits]
      congr 1
      omega

/-- `parseInt(s) || 0` recovers an integral rational from its
rendering (`0` collapses to `0` on both sides). -/
theorem jsParseIntOrZero_jsNumToString (q : ℚ) (h : q.den = 1) :
    jsParseIntOrZero (jsNumToString q) = q := by
  unfold jsParseIntOrZero
  rw [jsParseInt_jsNumToString q h]
  dsimp only
  by_cases hz : q.num = 0
  · rw [if_pos hz]
    rw [Rat.num_eq_zero] at hz
    rw [hz]
  · rw [if_neg hz]
    exact ratCast_num_of_den_one q h

/-- The `maximumUI` re-import chain recovers an integral rational. -/
theorem jsParseInt_map_jsNumToString (q : ℚ) (h : q.den = 1) :
    (jsParseInt (jsNumToString q)).map (fun z : ℤ => (z : ℚ)) = some q := by
  rw [jsParseInt_jsNumToString q h, Option.map_some']
  exact congrArg some (ratCast_num_of_den_one q h)

/-! ## Codec lemmas: list fields (`"; "` join vs `;` split) -/

/-- `noEdgeWs` from its head and last components. -/
theorem noEdgeWs_of (l : List Char)
    (h1 : ∀ c, l.head? = some c → wsp c = false)
    (h2 : ∀ c, l.getLast? = some c → wsp c = false) : noEdgeWs l = true := by
  unfold noEdgeWs
  rw [Bool.and_eq_true]
  constructor
  · cases hh : l.head? with
    | none => rfl
    | some c =>
      dsimp only
      rw [h1 c hh]
      rfl
  · cases hh : l.getLast? with
    | none => rfl
    | some c =>
      dsimp only
      rw [h2 c hh]
      rfl

/-- The head of a `noEdgeWs` list is not whitespace. -/
theorem noEdgeWs_head (l : List Char) (h : noEdgeWs l = true) (c : Char)
    (hc : l.head? = some c) : wsp c = false := by
  unfold noEdgeWs at h
  rw [Bool.and_eq_true] at h
  have h1 := h.1
  rw [hc] at h1
  dsimp only at h1
  simpa using h1

/-- The last element of a `noEdgeWs` list is not whitespace. -/
theorem noEdgeWs_last (l : List Char) (h : noEdgeWs l = true) (c : Char)
    (hc : l.getLast? = some c) : wsp c = false := by
  unfold noEdgeWs at h
  rw [Bool.and_eq_true] at h
  have h2 := h.2
  rw [hc] at h2
  dsimp only at h2
  simpa using h2

/-- Non-empty strings have non-empty character data. -/
theorem data_ne_nil (s : String) (h : s ≠ "") : s.data ≠ [] :=
  fun hd => h (strExt hd)

/-- `splitOnCharL` over a non-separator head prepends it to the first
piece. -/
theorem splitOnCharL_cons_ne (sep c : Char) (x : List Char) (hc : ¬ c = sep)
    (t : List Char) (ts : List (List Char)) (h : splitOnCharL sep x = t :: ts) :
    splitOnCharL sep (c :: x) = (c :: t) :: ts := by
  simp only [splitOnCharL, if_neg hc, h]

/-- Character shape of the `"; "` join of two or more elements. -/
theorem joinWith_semi_data (a b : String) (l : List String) :
    (joinWith "; " (a :: b :: l)).data = a.data ++ ';' :: ' ' :: (joinWith "; " (b :: l)).data := by
  show (a ++ "; " ++ joinWith "; " (b :: l)).data = _
  rw [String.data_append, String.data_append, List.append_assoc]
  rfl

/-- The `"; "` join of a non-empty list headed by a non-empty string is
non-empty. -/
theorem joinWith_semi_data_ne_nil : ∀ (b : String) (bs : List String), b ≠ "" →
    (joinWith "; " (b :: bs)).data ≠ [] := by
  intro b bs hb
  cases bs with
  | nil => exact data_ne_nil b hb
  | cons c cs =>
    rw [joinWith_semi_data]
    intro hcontra
    rcases List.append_eq_nil.mp hcontra with ⟨-, h2⟩
    exact List.cons_ne_nil _ _ h2

/-- Splitting the `"; "` join on `;`: the head piece is the first
element, every later piece carries one leading space. -/
theorem splitOnCharL_joinWith_semi : ∀ (a : String) (l : List String),
    (∀ s ∈ a :: l, ';' ∉ s.data) →
    splitOnCharL ';' (joinWith "; " (a :: l)).data =
      a.data :: l.map (fun s => ' ' :: s.data) := by
  intro a l
  induction l generalizing a with
  | nil =>
    intro h
    exact splitOnCharL_of_not_mem ';' a.data (h a (List.mem_cons_self _ _))
  | cons b bs ih =>
    intro h
    rw [joinWith_semi_data]
    rw [splitOnCharL_append ';' a.data _ (h a (List.mem_cons_self _ _))]
    have hih := ih b (fun s hs => h s (List.mem_cons_of_mem a hs))
    rw [splitOnCharL_cons_ne ';' ' ' _ (by decide) _ _ hih]
    rfl

/-- The `"; "` join of safe elements is a CSV-safe field. -/
theorem safeStr_joinWith_semi : ∀ (l : List String), (∀ s ∈ l, SafeElem s) →
    SafeStr (joinWith "; " l) := by
  intro l
  induction l with
  | nil =>
    intro _
    decide
  | cons a tl ih =>
    intro h
    cases tl with
    | nil => exact (h a (List.mem_cons_self _ _)).2.1
    | cons b bs =>
      have ha := h a (List.mem_cons_self _ _)
      have hrest : SafeStr (joinWith "; " (b :: bs)) :=
        ih (fun s hs => h s (List.mem_cons_of_mem _ hs))
      have hb := h b (List.mem_cons_of_mem _ (List.mem_cons_self _ _))
      have hadata : a.data ≠ [] := data_ne_nil a ha.1
      have hrdata : (joinWith "; " (b :: bs)).data ≠ [] :=
        joinWith_semi_data_ne_nil b bs hb.1
      refine ⟨?_, ?_, ?_⟩
      · rw [joinWith_semi_data]
        intro hmem
        rcases List.mem_append.mp hmem with hm | hm
        · exact ha.2.1.1 hm
        · rcases List.mem_cons.mp hm with hcq | hm2
          · exact absurd hcq (by decide)
          · rcases List.mem_cons.mp hm2 with hcq | hm3
            · exact absurd hcq (by decide)
            · exact hrest.1 hm3
      · rw [joinWith_semi_data]
        intro hmem
        rcases List.mem_append.mp hmem with hm | hm
        · exact ha.2.1.2.1 hm
        · rcases List.mem_cons.mp hm with hcq | hm2
          · exact absurd hcq (by decide)
          · rcases List.mem_cons.mp hm2 with hcq | hm3
            · exact absurd hcq (by decide)
            · exact hrest.2.1 hm3
      · rw [joinWith_semi_data]
        apply noEdgeWs_of
        · intro c hc
          rw [head?_append_left _ _ hadata] at hc
          exact noEdgeWs_head a.data ha.2.1.2.2 c hc
        · intro c hc
          rw [getLast?_append_right _ _ (List.cons_ne_nil _ _)] at hc
          rw [show (';' :: ' ' :: (joinWith "; " (b :: bs)).data)
              = [';', ' '] ++ (joinWith "; " (b :: bs)).data from rfl] at hc
          rw [getLast?_append_right _ _ hrdata] at hc
          exact noEdgeWs_last _ hrest.2.2 c hc

/-- The `;`-split / trim / drop-empty re-import chain inverts the
`"; "` join on safe elements. -/
theorem importList_joinWith (l : List String) (hne : l ≠ [])
    (h : ∀ s ∈ l, SafeElem s) :
    ((jsSplit ';' (joinWith "; " l)).map jsTrimStr).filter (fun t => t ≠ "") = l := by
  cases l with
  | nil => exact absurd rfl hne
  | cons a bs =>
    unfold jsSplit
    rw [splitOnCharL_joinWith_semi a bs (fun s hs => (h s hs).2.2)]
    have hmap : ∀ (xs : List String), (∀ s ∈ xs, SafeElem s) →
        ((xs.map (fun s => ' ' :: s.data)).map (fun ld => (⟨ld⟩ : String))).map jsTrimStr = xs := by
      intro xs hxs
      induction xs with
      | nil => rfl
      | cons x xr ihx =>
        rw [List.map_cons, List.map_cons, List.map_cons,
          ihx (fun s hs => hxs s (List.mem_cons_of_mem _ hs))]
        congr 1
        have hx := hxs x (List.mem_cons_self _ _)
        apply strExt
        rw [jsTrimStr_data]
        show trimL (' ' :: x.data) = x.data
        rw [trimL_cons_ws ' ' x.data (by decide)]
        exact trimL_of_noEdgeWs x.data hx.2.1.2.2
    rw [List.map_cons, List.map_cons]
    have ha : jsTrimStr (⟨a.data⟩ : String) = a :=
      jsTrimStr_of_safe a (h a (List.mem_cons_self _ _)).2.1
    rw [ha, hmap bs (fun s hs => h s (List.mem_cons_of_mem _ hs))]
    have hfilter : ∀ (xs : List String), (∀ s ∈ xs, SafeElem s) →
        xs.filter (fun t => t ≠ "") = xs := by
      intro xs hxs
      induction xs with
      | nil => rfl
      | cons x xr ihx =>
        rw [List.filter_cons]
        rw [if_pos (decide_eq_true (hxs x (List.mem_cons_self _ _)).1)]
        rw [ihx (fun s hs => hxs s (List.mem_cons_of_mem _ hs))]
    exact hfilter _ h

/-! ## Codec lemmas: parseCSVLine inverts csvLine -/

/-- Quote-free text passes through the quoted splitter state unchanged. -/
theorem csvSplit_passthrough : ∀ (f rest cur : List Char), '"' ∉ f →
    csvSplit (f ++ rest) cur true = csvSplit rest (cur ++ f) true := by
  intro f
  induction f with
  | nil =>
    intro rest cur _
    rw [List.nil_append, List.append_nil]
  | cons c cs ih =>
    intro rest cur h
    have hc : ¬ c = '"' := fun hcc => h (hcc ▸ List.mem_cons_self _ _)
    rw [List.cons_append]
    simp only [csvSplit]
    rw [if_neg hc, if_neg (fun hx : c = ',' ∧ true = false => Bool.noConfusion hx.2)]
    rw [ih rest (cur ++ [c]) (fun hm => h (List.mem_cons_of_mem _ hm)), List.append_assoc]
    rfl

/-- The quoted-field splitter recovers the (trimmed) fields from the
rendered inner text. -/
theorem csvSplit_renderInner : ∀ (fields : List String), fields ≠ [] →
    (∀ f ∈ fields, '"' ∉ f.data) →
    csvSplit (renderInner fields ++ ['"']) [] true = fields.map (fun f => trimL f.data) := by
  intro fields
  induction fields with
  | nil =>
    intro hne _
    exact absurd rfl hne
  | cons f rest ih =>
    intro _ h
    cases rest with
    | nil =>
      show csvSplit (f.data ++ ['"']) [] true = [trimL f.data]
      rw [csvSplit_passthrough f.data ['"'] [] (h f (List.mem_cons_self _ _)),
        List.nil_append]
      rfl
    | cons g gs =>
      rw [show renderInner (f :: g :: gs)
          = f.data ++ '"' :: ',' :: '"' :: renderInner (g :: gs) from rfl]
      rw [List.append_assoc]
      rw [csvSplit_passthrough f.data _ [] (h f (List.mem_cons_self _ _)), List.nil_append]
      show trimL f.data :: csvSplit (renderInner (g :: gs) ++ ['"']) [] true
          = (f :: g :: gs).map (fun f => trimL f.data)
      rw [ih (List.cons_ne_nil _ _) (fun x hx => h x (List.mem_cons_of_mem _ hx))]
      rfl

/-- The `","`-join of the fields is the rendered inner text. -/
theorem joinWith_quote_data : ∀ (fields : List String),
    (joinWith "\",\"" fields).data = renderInner fields := by
  intro fields
  induction fields with
  | nil => rfl
  | cons f rest ih =>
    cases rest with
    | nil => rfl
    | cons g gs =>
      show (f ++ "\",\"" ++ joinWith "\",\"" (g :: gs)).data = _
      rw [String.data_append, String.data_append, List.append_assoc, ih]
      rfl

/-- The characters of a rendered CSV record. -/
theorem csvLine_data (fields : List String) :
    (csvLine fields).data = '"' :: (renderInner fields ++ ['"']) := by
  unfold csvLine
  rw [String.data_append, String.data_append, joinWith_quote_data, List.append_assoc]
  rfl

/-- A rendered CSV record is quote-delimited, hence trim-stable. -/
theorem noEdgeWs_csvLine (fields : List String) :
    noEdgeWs (csvLine fields).data = true := by
  rw [csvLine_data]
  apply noEdgeWs_of
  · intro c hc
    rw [show ('"' :: (renderInner fields ++ ['"'])).head? = some '"' from rfl] at hc
    cases hc
    decide
  · intro c hc
    rw [show ('"' :: (renderInner fields ++ ['"']))
        = ('"' :: renderInner fields) ++ ['"'] from by rw [List.cons_append]] at hc
    rw [getLast?_append_right _ _ (List.cons_ne_nil _ _)] at hc
    cases hc
    decide

/-- Every character of the rendered inner text is a field character or
a CSV delimiter. -/
theorem mem_renderInner : ∀ (fields : List String) (c : Char), c ∈ renderInner fields →
    (∃ f ∈ fields, c ∈ f.data) ∨ c = '"' ∨ c = ',' := by
  intro fields
  induction fields with
  | nil =>
    intro c hc
    exact absurd hc (List.not_mem_nil c)
  | cons f rest ih =>
    cases rest with
    | nil =>
      intro c hc
      exact Or.inl ⟨f, List.mem_cons_self _ _, hc⟩
    | cons g gs =>
      intro c hc
      rw [show renderInner (f :: g :: gs)
          = f.data ++ '"' :: ',' :: '"' :: renderInner (g :: gs) from rfl] at hc
      rcases List.mem_append.mp hc with hm | hm
      · exact Or.inl ⟨f, List.mem_cons_self _ _, hm⟩
      · rcases List.mem_cons.mp hm with rfl | hm2
        · exact Or.inr (Or.inl rfl)
        · rcases List.mem_cons.mp hm2 with rfl | hm3
          · exact Or.inr (Or.inr rfl)
          · rcases List.mem_cons.mp hm3 with rfl | hm4
            · exact Or.inr (Or.inl rfl)
            · rcases ih c hm4 with ⟨f2, hf2, hcf2⟩ | hq
              · exact Or.inl ⟨f2, List.mem_cons_of_mem _ hf2, hcf2⟩
              · exact Or.inr hq

/-- A rendered CSV record of newline-free fields is newline-free. -/
theorem no_newline_csvLine (fields : List String)
    (h : ∀ f ∈ fields, '\n' ∉ f.data) : '\n' ∉ (csvLine fields).data := by
  rw [csvLine_data]
  intro hmem
  rcases List.mem_cons.mp hmem with hq | hm
  · exact absurd hq (by decide)
  · rcases List.mem_append.mp hm with hm2 | hm2
    · rcases mem_renderInner fields '\n' hm2 with ⟨f, hf, hcf⟩ | hq | hq
      · exact h f hf hcf
      · exact absurd hq (by decide)
      · exact absurd hq (by decide)
    · rcases List.mem_singleton.mp hm2 with hq
      exact absurd hq (by decide)

/-- `parseCSVLine` inverts `csvLine` on quote-free trim-stable fields. -/
theorem parseCSVLine_csvLine (fields : List String) (hne : fields ≠ [])
    (h : ∀ f ∈ fields, '"' ∉ f.data ∧ trimL f.data = f.data) :
    parseCSVLine (csvLine fields) = fields := by
  unfold parseCSVLine
  rw [csvLine_data]
  show (csvSplit (renderInner fields ++ ['"']) [] true).map
      (fun v => (⟨v.filter (fun c => ¬ c = '"')⟩ : String)) = fields
  rw [csvSplit_renderInner fields hne (fun f hf => (h f hf).1)]
  have hid : ∀ (xs : List String), (∀ f ∈ xs, '"' ∉ f.data ∧ trimL f.data = f.data) →
      (xs.map (fun f => trimL f.data)).map
        (fun v => (⟨v.filter (fun c => ¬ c = '"')⟩ : String)) = xs := by
    intro xs hxs
    induction xs with
    | nil => rfl
    | cons x xr ihx =>
      rw [List.map_cons, List.map_cons, ihx (fun f hf => hxs f (List.mem_cons_of_mem _ hf))]
      congr 1
      have hx := hxs x (List.mem_cons_self _ _)
      rw [hx.2]
      apply strExt
      show x.data.filter (fun c => ¬ c = '"') = x.data
      rw [List.filter_eq_self]
      intro c hc
      exact decide_eq_true (fun hcq => hx.1 (hcq ▸ hc))
  exact hid fields h

/-! ## Codec lemmas: per-field round trips and safety -/

/-- A required string field re-imports unchanged. -/
theorem jsShow_req (o : Option String) (h : ReqStrWF o) : some (jsShow o) = o := by
  cases o with
  | none => exact False.elim h
  | some s => rfl

/-- A rate field re-imports unchanged when its pricing model matches. -/
theorem importRate_true (c : Prop) [Decidable c] (hc : c) (o : Option ℚ) (h : ReqRateWF o) :
    (if c ∧ jsOrEmptyNum o ≠ "" then jsParseFloat (jsOrEmptyNum o) else none) = o := by
  cases o with
  | none => exact False.elim h
  | some q =>
    rw [show jsOrEmptyNum (some q) = if q = 0 then "" else jsNumToString q from rfl,
      if_neg h.1]
    rw [if_pos ⟨hc, jsNumToString_ne_empty q⟩]
    exact jsParseFloat_jsNumToString q h.2

/-- A rate field of the other pricing model re-imports as absent. -/
theorem importRate_false (c : Prop) [Decidable c] (hc : ¬ c) (s : String) :
    (if c ∧ s ≠ "" then jsParseFloat s else none) = none := by
  rw [if_neg (fun hx => hc hx.1)]

/-- The `minimumUI` field re-imports unchanged. -/
theorem importMinUI (o : Option ℚ) (h : MinUIWF o) :
    some (jsParseIntOrZero (jsShowNum o)) = o := by
  cases o with
  | none => exact False.elim h
  | some m =>
    rw [show jsShowNum (some m) = jsNumToString m from rfl, jsParseIntOrZero_jsNumToString m h]

/-- The `maximumUI` field re-imports unchanged. -/
theorem importMaxUI (o : Option ℚ) (h : MaxUIWF o) :
    (if jsOrEmptyNum o ≠ "" then (jsParseInt (jsOrEmptyNum o)).map (fun z : ℤ => (z : ℚ))
     else none) = o := by
  cases o with
  | none => rw [if_neg (fun hx => hx rfl)]
  | some m =>
    rw [show jsOrEmptyNum (some m) = if m = 0 then "" else jsNumToString m from rfl, if_neg h.1]
    rw [if_pos (jsNumToString_ne_empty m)]
    exact jsParseInt_map_jsNumToString m h.2

/-- An optional `x || ''` numeric field re-imports unchanged. -/
theorem importOptNum (o : Option ℚ) (h : OptNumWF o) :
    (if jsOrEmptyNum o ≠ "" then jsParseFloat (jsOrEmptyNum o) else none) = o := by
  cases o with
  | none => rw [if_neg (fun hx => hx rfl)]
  | some q =>
    rw [show jsOrEmptyNum (some q) = if q = 0 then "" else jsNumToString q from rfl,
      if_neg h.1]
    rw [if_pos (jsNumToString_ne_empty q)]
    exact jsParseFloat_jsNumToString q h.2

/-- The `exclusiveGroup` field re-imports unchanged. -/
theorem importGroup (o : Option String) (h : OptGroupWF o) :
    (if jsOrEmptyStr o ≠ "" then some (jsOrEmptyStr o) else none) = o := by
  cases o with
  | none => rw [if_neg (fun hx => hx rfl)]
  | some g =>
    rw [show jsOrEmptyStr (some g) = g from rfl, if_pos h.1]

/-- The `YES`/`NO` flags re-import unchanged. -/
theorem importFlag (b : Bool) : decide (jsToUpper (yesNo b) = "YES") = b := by
  cases b <;> decide

/-- A `"; "`-joined list field re-imports unchanged. -/
theorem importListField (o : Option (List String)) (h : OptListWF o) :
    (if joinWith "; " (o.getD []) ≠ "" then
      some (((jsSplit ';' (joinWith "; " (o.getD []))).map jsTrimStr).filter (fun t => t ≠ ""))
     else none) = o := by
  cases o with
  | none => rw [if_neg (fun hx => hx rfl)]
  | some l =>
    obtain ⟨hne, hsafe⟩ := h
    cases l with
    | nil => exact absurd rfl hne
    | cons a bs =>
      rw [show (some (a :: bs) : Option (List String)).getD [] = a :: bs from rfl]
      rw [if_pos (ne_empty_of_data _ (joinWith_semi_data_ne_nil a bs
        (hsafe a (List.mem_cons_self _ _)).1))]
      rw [importList_joinWith (a :: bs) (List.cons_ne_nil _ _) hsafe]

/-- `x || ''` numeric fields are always CSV-safe. -/
theorem safeStr_jsOrEmptyNum (o : Option ℚ) : SafeStr (jsOrEmptyNum o) := by
  cases o with
  | none => decide
  | some q =>
    rw [show jsOrEmptyNum (some q) = if q = 0 then "" else jsNumToString q from rfl]
    by_cases hz : q = 0
    · rw [if_pos hz]
      decide
    · rw [if_neg hz]
      exact safeStr_jsNumToString q

/-- `YES`/`NO` flags are CSV-safe. -/
theorem safeStr_yesNo (b : Bool) : SafeStr (yesNo b) := by
  cases b <;> decide

/-- The manufacturer columns of a well-formed manufacturer are CSV-safe. -/
theorem manufacturerFields_safe (m : Manufacturer) (h : ManufacturerWF m) :
    ∀ f ∈ manufacturerFields m, SafeStr f := by
  intro f hf
  rcases List.mem_cons.mp hf with rfl | hf2
  · exact h.1
  rcases List.mem_cons.mp hf2 with rfl | hf3
  · exact h.2
  exact absurd hf3 (List.not_mem_nil f)

/-- The product-line columns of a well-formed product line are CSV-safe. -/
theorem productLineFields_safe (pl : ProductLine) (h : ProductLineWF pl) :
    ∀ f ∈ productLineFields pl, SafeStr f := by
  intro f hf
  rcases List.mem_cons.mp hf with rfl | hf2
  · exact h.1
  rcases List.mem_cons.mp hf2 with rfl | hf3
  · exact h.2.1
  rcases List.mem_cons.mp hf3 with rfl | hf4
  · exact h.2.2
  exact absurd hf4 (List.not_mem_nil f)

/-- The product columns of a well-formed product are CSV-safe. -/
theorem productFields_safe (p : Product) (h : ProductWF p) :
    ∀ f ∈ productFields p, SafeStr f := by
  obtain ⟨hid, hpl, hpt, hptc, hname, -, -, -, -, hmin, -, hmodel⟩ := h
  have hshow : ∀ (o : Option String), ReqStrWF o → SafeStr (jsShow o) := by
    intro o ho
    cases o with
    | none => exact False.elim ho
    | some s => exact ho
  have hmodelSafe : SafeStr p.pricingModel := by
    rcases hmodel with ⟨hm, -, -⟩ | ⟨hm, -, -⟩ <;> rw [hm] <;> decide
  have hminSafe : SafeStr (jsShowNum p.minimumUI) := by
    cases hmv : p.minimumUI with
    | none => rw [hmv] at hmin; exact False.elim hmin
    | some m => exact safeStr_jsNumToString m
  intro f hf
  rcases List.mem_cons.mp hf with rfl | hf
  · exact hid
  rcases List.mem_cons.mp hf with rfl | hf
  · exact hshow _ hpl
  rcases List.mem_cons.mp hf with rfl | hf
  · exact hshow _ hpt
  rcases List.mem_cons.mp hf with rfl | hf
  · exact hshow _ hptc
  rcases List.mem_cons.mp hf with rfl | hf
  · exact hshow _ hname
  rcases List.mem_cons.mp hf with rfl | hf
  · exact hmodelSafe
  rcases List.mem_cons.mp hf with rfl | hf
  · exact safeStr_jsOrEmptyNum _
  rcases List.mem_cons.mp hf with rfl | hf
  · exact safeStr_jsOrEmptyNum _
  rcases List.mem_cons.mp hf with rfl | hf
  · exact hminSafe
  rcases List.mem_cons.mp hf with rfl | hf
  · exact safeStr_jsOrEmptyNum _
  exact absurd hf (List.not_mem_nil f)

/-- The addon columns of a well-formed addon are CSV-safe. -/
theorem addonFields_safe (a : Addon) (h : AddonWF a) :
    ∀ f ∈ addonFields a, SafeStr f := by
  obtain ⟨hid, hname, hgrp, htypes, hlines, -, -, hmodel⟩ := h
  have hshow : ∀ (o : Option String), ReqStrWF o → SafeStr (jsShow o) := by
    intro o ho
    cases o with
    | none => exact False.elim ho
    | some s => exact ho
  have hmodelSafe : SafeStr a.pricingModel := by
    rcases hmodel with ⟨hm, -, -⟩ | ⟨hm, -, -⟩ <;> rw [hm] <;> decide
  have hgrpSafe : SafeStr (jsOrEmptyStr a.exclusiveGroup) := by
    cases hgv : a.exclusiveGroup with
    | none => decide
    | some g =>
      rw [hgv] at hgrp
      exact hgrp.2
  have hjoin : ∀ (o : Option (List String)), OptListWF o →
      SafeStr (joinWith "; " (o.getD [])) := by
    intro o ho
    cases o with
    | none => decide
    | some l => exact safeStr_joinWith_semi l ho.2
  intro f hf
  rcases List.mem_cons.mp hf with rfl | hf
  · exact hid
  rcases List.mem_cons.mp hf with rfl | hf
  · exact hshow _ hname
  rcases List.mem_cons.mp hf with rfl | hf
  · exact hmodelSafe
  rcases List.mem_cons.mp hf with rfl | hf
  · exact safeStr_jsOrEmptyNum _
  rcases List.mem_cons.mp hf with rfl | hf
  · exact safeStr_jsOrEmptyNum _
  rcases List.mem_cons.mp hf with rfl | hf
  · exact hgrpSafe
  rcases List.mem_cons.mp hf with rfl | hf
  · exact safeStr_yesNo _
  rcases List.mem_cons.mp hf with rfl | hf
  · exact safeStr_yesNo _
  rcases List.mem_cons.mp hf with rfl | hf
  · exact safeStr_yesNo _
  rcases List.mem_cons.mp hf with rfl | hf
  · exact hjoin _ htypes
  rcases List.mem_cons.mp hf with rfl | hf
  · exact hjoin _ hlines
  rcases List.mem_cons.mp hf with rfl | hf
  · exact safeStr_jsOrEmptyNum _
  rcases List.mem_cons.mp hf with rfl | hf
  · exact safeStr_jsOrEmptyNum _
  exact absurd hf (List.not_mem_nil f)

/-! ## Codec lemmas: entity reconstruction -/

/-- `importProduct` on an explicit ten-column row. -/
theorem importProduct_fields (f0 f1 f2 f3 f4 f5 f6 f7 f8 f9 : String) :
    importProduct [f0, f1, f2, f3, f4, f5, f6, f7, f8, f9] =
      { id := f0, productLineId := some f1, productType := some f2, productTypeCode := some f3,
        name := some f4, pricingModel := f5,
        uiRate := if f5 = "UI" ∧ f6 ≠ "" then jsParseFloat f6 else none,
        flatPrice := if f5 = "FLAT" ∧ f7 ≠ "" then jsParseFloat f7 else none,
        minimumUI := some (jsParseIntOrZero f8),
        maximumUI := if f9 ≠ "" then (jsParseInt f9).map (fun z : ℤ => (z : ℚ)) else none } := rfl

/-- `importAddon` on an explicit thirteen-column row. -/
theorem importAddon_fields (f0 f1 f2 f3 f4 f5 f6 f7 f8 f9 f10 f11 f12 : String) :
    importAddon [f0, f1, f2, f3, f4, f5, f6, f7, f8, f9, f10, f11, f12] =
      { id := f0, name := some f1, pricingModel := f2,
        uiRate := if f2 = "UI" ∧ f3 ≠ "" then jsParseFloat f3 else none,
        flatPrice := if f2 = "FLAT" ∧ f4 ≠ "" then jsParseFloat f4 else none,
        exclusiveGroup := if f5 ≠ "" then some f5 else none,
        mandatory := decide (jsToUpper f6 = "YES"),
        hiddenFromCustomer := decide (jsToUpper f7 = "YES"),
        isJobBased := decide (jsToUpper f8 = "YES"),
        allowedProductTypes := if f9 ≠ "" then
          some (((jsSplit ';' f9).map jsTrimStr).filter (fun t => t ≠ "")) else none,
        allowedProductLines := if f10 ≠ "" then
          some (((jsSplit ';' f10).map jsTrimStr).filter (fun t => t ≠ "")) else none,
        minSize := if f11 ≠ "" then jsParseFloat f11 else none,
        maxSize := if f12 ≠ "" then jsParseFloat f12 else none } := rfl

/-- Re-importing the exported product columns reconstructs the product. -/
theorem importProduct_productFields (p : Product) (h : ProductWF p) :
    importProduct (productFields p) = p := by
  obtain ⟨pid, pplid, ppleg, ppt, ptyp, pptc, pnm, pmodel, prate, pflat, pmin, pmax, psl, paa⟩ := p
  unfold ProductWF at h
  dsimp only at h
  obtain ⟨hid, hpl, hpt, hptc, hname, hpleg, htyp, hsl, haa, hmin, hmax, hmodel⟩ := h
  subst hpleg htyp hsl haa
  dsimp only [productFields]
  rw [importProduct_fields]
  rw [jsShow_req _ hpl, jsShow_req _ hpt, jsShow_req _ hptc, jsShow_req _ hname]
  rw [importMinUI _ hmin, importMaxUI _ hmax]
  rcases hmodel with ⟨hm, hr, hf⟩ | ⟨hm, hr, hf⟩
  · subst hm hf
    rw [importRate_true (("UI" : String) = "UI") rfl _ hr]
    rw [importRate_false (("UI" : String) = "FLAT") (by decide) _]
  · subst hm hf
    rw [importRate_true (("FLAT" : String) = "FLAT") rfl _ hr]
    rw [importRate_false (("FLAT" : String) = "UI") (by decide) _]

/-- Re-importing the exported addon columns reconstructs the addon. -/
theorem importAddon_addonFields (a : Addon) (h : AddonWF a) :
    importAddon (addonFields a) = a := by
  obtain ⟨aid, anm, amodel, arate, aflat, agrp, amand, ahid, ajob, atypes, alines, amin, amax⟩ := a
  unfold AddonWF at h
  dsimp only at h
  obtain ⟨hid, hname, hgrp, htypes, hlines, hmin, hmax, hmodel⟩ := h
  dsimp only [addonFields]
  rw [importAddon_fields]
  rw [jsShow_req _ hname, importGroup _ hgrp, importFlag amand, importFlag ahid, importFlag ajob]
  rw [importListField _ htypes, importListField _ hlines]
  rw [importOptNum _ hmin, importOptNum _ hmax]
  rcases hmodel with ⟨hm, hr, hf⟩ | ⟨hm, hr, hf⟩
  · subst hm hf
    rw [importRate_true (("UI" : String) = "UI") rfl _ hr]
    rw [importRate_false (("UI" : String) = "FLAT") (by decide) _]
  · subst hm hf
    rw [importRate_true (("FLAT" : String) = "FLAT") rfl _ hr]
    rw [importRate_false (("FLAT" : String) = "UI") (by decide) _]

/-! ## Codec lemmas: row processing and the line scanner -/

/-- Strings with different head characters differ. -/
theorem ne_of_head (l : String) (c : Char) (hq : l.data.head? = some c) (s : String)
    (hs : s.data.head? ≠ some c) : l ≠ s := fun h => hs (h ▸ hq)

/-- A rendered CSV record starts with a quote. -/
theorem csvLine_head (fields : List String) : (csvLine fields).data.head? = some '"' := by
  rw [csvLine_data]
  rfl

/-- A rendered CSV record is `trim`-stable. -/
theorem jsTrimStr_csvLine (fields : List String) : jsTrimStr (csvLine fields) = csvLine fields :=
  strExt (by rw [jsTrimStr_data, trimL_of_noEdgeWs _ (noEdgeWs_csvLine fields)])

/-- One manufacturer row updates only the manufacturer object. -/
theorem processRow_manufacturer (m : Manufacturer) (h : ManufacturerWF m) (d : CatalogData) :
    processRow (some .manufacturers) (csvLine (manufacturerFields m)) d
      = { d with manufacturers := objSet m.id m d.manufacturers } := by
  have hparse : parseCSVLine (csvLine (manufacturerFields m)) = [m.id, m.name] :=
    parseCSVLine_csvLine _ (List.cons_ne_nil _ _) (fun f hf =>
      ⟨(manufacturerFields_safe m h f hf).1,
       trimL_of_noEdgeWs _ (manufacturerFields_safe m h f hf).2.2⟩)
  unfold processRow
  dsimp only
  rw [hparse]
  rfl

/-- One product-line row updates only the product-line object. -/
theorem processRow_productLine (pl : ProductLine) (h : ProductLineWF pl) (d : CatalogData) :
    processRow (some .productLines) (csvLine (productLineFields pl)) d
      = { d with productLines := objSet pl.id pl d.productLines } := by
  have hparse : parseCSVLine (csvLine (productLineFields pl))
      = [pl.id, pl.manufacturerId, pl.name] :=
    parseCSVLine_csvLine _ (List.cons_ne_nil _ _) (fun f hf =>
      ⟨(productLineFields_safe pl h f hf).1,
       trimL_of_noEdgeWs _ (productLineFields_safe pl h f hf).2.2⟩)
  unfold processRow
  dsimp only
  rw [hparse]
  rfl

/-- One product row updates only the product object. -/
theorem processRow_product (p : Product) (h : ProductWF p) (d : CatalogData) :
    processRow (some .products) (csvLine (productFields p)) d
      = { d with products := objSet p.id p d.products } := by
  have hsafe := productFields_safe p h
  have hparse : parseCSVLine (csvLine (productFields p)) = productFields p :=
    parseCSVLine_csvLine _ (by dsimp only [productFields]; exact List.cons_ne_nil _ _)
      (fun f hf => ⟨(hsafe f hf).1, trimL_of_noEdgeWs _ (hsafe f hf).2.2⟩)
  unfold processRow
  dsimp only
  rw [hparse]
  rw [importProduct_productFields p h]
  rfl

/-- One addon row updates only the addon object. -/
theorem processRow_addon (a : Addon) (h : AddonWF a) (d : CatalogData) :
    processRow (some .addons) (csvLine (addonFields a)) d
      = { d with addons := objSet a.id a d.addons } := by
  have hsafe := addonFields_safe a h
  have hparse : parseCSVLine (csvLine (addonFields a)) = addonFields a :=
    parseCSVLine_csvLine _ (by dsimp only [addonFields]; exact List.cons_ne_nil _ _)
      (fun f hf => ⟨(hsafe f hf).1, trimL_of_noEdgeWs _ (hsafe f hf).2.2⟩)
  unfold processRow
  dsimp only
  rw [hparse]
  rw [importAddon_addonFields a h]
  rfl

/-- A quote-led trim-stable line is no header and no blank: the scanner
hands it to `processRow`. -/
theorem importLoop_row_step (l : String) (rest : List String) (sec : Option CsvSection)
    (d : CatalogData) (htrim : jsTrimStr l = l) (hq : l.data.head? = some '"') :
    importLoop (l :: rest) false sec d = importLoop rest false sec (processRow sec l d) := by
  conv_lhs => unfold importLoop
  rw [htrim]
  rw [if_neg (ne_of_head l '"' hq "MANUFACTURERS" (by decide)),
    if_neg (ne_of_head l '"' hq "PRODUCT LINES" (by decide)),
    if_neg (ne_of_head l '"' hq "PRODUCTS" (by decide)),
    if_neg (ne_of_head l '"' hq "ADDONS" (by decide)),
    if_neg (ne_of_head l '"' hq "" (by decide))]

/-- A blank line is skipped. -/
theorem importLoop_blank_step (rest : List String) (sec : Option CsvSection) (d : CatalogData) :
    importLoop ("" :: rest) false sec d = importLoop rest false sec d := rfl

/-- Writing a fresh key appends the pair. -/
theorem objSet_fresh {α : Type} (k : String) (v : α) : ∀ (acc : List (String × α)),
    (∀ p ∈ acc, p.1 ≠ k) → objSet k v acc = acc ++ [(k, v)]
  | [], _ => rfl
  | (k₂, v₂) :: rest, h => by
    unfold objSet
    rw [if_neg (h (k₂, v₂) (List.mem_cons_self _ _))]
    rw [objSet_fresh k v rest (fun q hq => h q (List.mem_cons_of_mem _ hq))]
    rfl

/-- Folding keyed writes of entities with fresh distinct ids appends
them in order. -/
theorem foldl_objSet_map {α : Type} (key : α → String) : ∀ (l : List α)
    (acc : List (String × α)), (l.map key).Nodup → (∀ e ∈ l, ∀ p ∈ acc, p.1 ≠ key e) →
    l.foldl (fun a e => objSet (key e) e a) acc = acc ++ l.map (fun e => (key e, e)) := by
  intro l
  induction l with
  | nil =>
    intro acc _ _
    rw [List.foldl_nil, List.map_nil, List.append_nil]
  | cons e l ih =>
    intro acc hnd hfresh
    rw [List.map_cons] at hnd
    have hnotmem := (List.nodup_cons.mp hnd).1
    have hndtail := (List.nodup_cons.mp hnd).2
    rw [List.foldl_cons]
    rw [objSet_fresh (key e) e acc (hfresh e (List.mem_cons_self _ _))]
    rw [ih (acc ++ [(key e, e)]) hndtail (by
      intro x hx p hp
      rcases List.mem_append.mp hp with hpa | hpe
      · exact hfresh x (List.mem_cons_of_mem _ hx) p hpa
      · rcases List.mem_singleton.mp hpe with rfl
        intro hcontra
        refine hnotmem ?_
        rw [show key e = key x from hcontra]
        exact List.mem_map_of_mem key hx)]
    rw [List.map_cons, List.append_assoc]
    rfl

/-- A section header line sets the section and skips the column-title
line that follows it (MANUFACTURERS). -/
theorem importLoop_mfr_header (x : String) (rest : List String) (sec : Option CsvSection)
    (d : CatalogData) : importLoop ("MANUFACTURERS" :: x :: rest) false sec d
      = importLoop rest false (some .manufacturers) d := rfl

/-- A section header line sets the section and skips the column-title
line that follows it (PRODUCT LINES). -/
theorem importLoop_pl_header (x : String) (rest : List String) (sec : Option CsvSection)
    (d : CatalogData) : importLoop ("PRODUCT LINES" :: x :: rest) false sec d
      = importLoop rest false (some .productLines) d := rfl

/-- A section header line sets the section and skips the column-title
line that follows it (PRODUCTS). -/
theorem importLoop_p_header (x : String) (rest : List String) (sec : Option CsvSection)
    (d : CatalogData) : importLoop ("PRODUCTS" :: x :: rest) false sec d
      = importLoop rest false (some .products) d := rfl

/-- A section header line sets the section and skips the column-title
line that follows it (ADDONS). -/
theorem importLoop_a_header (x : String) (rest : List String) (sec : Option CsvSection)
    (d : CatalogData) : importLoop ("ADDONS" :: x :: rest) false sec d
      = importLoop rest false (some .addons) d := rfl

/-- The scanner folds a block of manufacturer rows into keyed writes. -/
theorem importLoop_mfr_rows : ∀ (ms : List Manufacturer) (rest : List String) (d : CatalogData),
    (∀ m ∈ ms, ManufacturerWF m) →
    importLoop (ms.map (fun m => csvLine (manufacturerFields m)) ++ rest) false
        (some .manufacturers) d
      = importLoop rest false (some .manufacturers)
          { d with manufacturers := ms.foldl (fun acc m => objSet m.id m acc) d.manufacturers } := by
  intro ms
  induction ms with
  | nil =>
    intro rest d _
    rfl
  | cons m ms ih =>
    intro rest d hwf
    rw [List.map_cons, List.cons_append]
    rw [importLoop_row_step _ _ _ _ (jsTrimStr_csvLine _) (csvLine_head _)]
    rw [processRow_manufacturer m (hwf m (List.mem_cons_self _ _)) d]
    rw [ih rest _ (fun x hx => hwf x (List.mem_cons_of_mem _ hx))]
    rfl

/-- The scanner folds a block of product-line rows into keyed writes. -/
theorem importLoop_pl_rows : ∀ (pls : List ProductLine) (rest : List String) (d : CatalogData),
    (∀ pl ∈ pls, ProductLineWF pl) →
    importLoop (pls.map (fun pl => csvLine (productLineFields pl)) ++ rest) false
        (some .productLines) d
      = importLoop rest false (some .productLines)
          { d with productLines := pls.foldl (fun acc pl => objSet pl.id pl acc) d.productLines } := by
  intro pls
  induction pls with
  | nil =>
    intro rest d _
    rfl
  | cons pl pls ih =>
    intro rest d hwf
    rw [List.map_cons, List.cons_append]
    rw [importLoop_row_step _ _ _ _ (jsTrimStr_csvLine _) (csvLine_head _)]
    rw [processRow_productLine pl (hwf pl (List.mem_cons_self _ _)) d]
    rw [ih rest _ (fun x hx => hwf x (List.mem_cons_of_mem _ hx))]
    rfl

/-- The scanner folds a block of product rows into keyed writes. -/
theorem importLoop_p_rows : ∀ (ps : List Product) (rest : List String) (d : CatalogData),
    (∀ p ∈ ps, ProductWF p) →
    importLoop (ps.map (fun p => csvLine (productFields p)) ++ rest) false
        (some .products) d
      = importLoop rest false (some .products)
          { d with products := ps.foldl (fun acc p => objSet p.id p acc) d.products } := by
  intro ps
  induction ps with
  | nil =>
    intro rest d _
    rfl
  | cons p ps ih =>
    intro rest d hwf
    rw [List.map_cons, List.cons_append]
    rw [importLoop_row_step _ _ _ _ (jsTrimStr_csvLine _) (csvLine_head _)]
    rw [processRow_product p (hwf p (List.mem_cons_self _ _)) d]
    rw [ih rest _ (fun x hx => hwf x (List.mem_cons_of_mem _ hx))]
    rfl

/-- The scanner folds a block of addon rows into keyed writes. -/
theorem importLoop_a_rows : ∀ (addons : List Addon) (rest : List String) (d : CatalogData),
    (∀ a ∈ addons, AddonWF a) →
    importLoop (addons.map (fun a => csvLine (addonFields a)) ++ rest) false
        (some .addons) d
      = importLoop rest false (some .addons)
          { d with addons := addons.foldl (fun acc a => objSet a.id a acc) d.addons } := by
  intro addons
  induction addons with
  | nil =>
    intro rest d _
    rfl
  | cons a addons ih =>
    intro rest d hwf
    rw [List.map_cons, List.cons_append]
    rw [importLoop_row_step _ _ _ _ (jsTrimStr_csvLine _) (csvLine_head _)]
    rw [processRow_addon a (hwf a (List.mem_cons_self _ _)) d]
    rw [ih rest _ (fun x hx => hwf x (List.mem_cons_of_mem _ hx))]
    rfl

/-- The scanner stops on an exhausted line list. -/
theorem importLoop_nil (b : Bool) (sec : Option CsvSection) (d : CatalogData) :
    importLoop [] b sec d = d := rfl

/-- Running the scanner over the exported line sequence builds exactly
the keyed export collections. -/
theorem importLoop_exportLines (v : Version) (h : VersionWF v) :
    importLoop (exportLines v) false none {} = exportedCatalogData v := by
  obtain ⟨hm, hmn, hpl, hpln, hp, hpn, ha, han⟩ := h
  unfold exportLines
  simp only [List.append_assoc, List.cons_append, List.nil_append]
  rw [importLoop_mfr_header]
  rw [importLoop_mfr_rows _ _ _ hm]
  rw [importLoop_blank_step]
  rw [importLoop_pl_header]
  rw [importLoop_pl_rows _ _ _ hpl]
  rw [importLoop_blank_step]
  rw [importLoop_p_header]
  rw [importLoop_p_rows _ _ _ hp]
  rw [importLoop_blank_step]
  rw [importLoop_a_header]
  rw [show v.addons.map (fun a => csvLine (addonFields a))
      = v.addons.map (fun a => csvLine (addonFields a)) ++ [] from (List.append_nil _).symm]
  rw [importLoop_a_rows _ _ _ ha]
  rw [importLoop_nil]
  dsimp only
  rw [foldl_objSet_map Manufacturer.id _ _ hmn (fun e he p hp => absurd hp (List.not_mem_nil p))]
  rw [foldl_objSet_map ProductLine.id _ _ hpln (fun e he p hp => absurd hp (List.not_mem_nil p))]
  rw [foldl_objSet_map Product.id _ _ hpn (fun e he p hp => absurd hp (List.not_mem_nil p))]
  rw [foldl_objSet_map Addon.id _ _ han (fun e he p hp => absurd hp (List.not_mem_nil p))]
  simp only [List.nil_append]
  rfl

/-! ## Codec lemmas: shape of the exported text -/

/-- Newline-terminated joining distributes over append. -/
theorem joinNlL_append : ∀ (X Y : List (List Char)), joinNlL (X ++ Y) = joinNlL X ++ joinNlL Y := by
  intro X Y
  induction X with
  | nil => rfl
  | cons x xs ih =>
    rw [List.cons_append]
    show x ++ '\n' :: joinNlL (xs ++ Y) = (x ++ '\n' :: joinNlL xs) ++ joinNlL Y
    rw [ih, List.append_assoc]
    rfl

/-- Newline-terminated joining is interleaving plus a final newline. -/
theorem joinNlL_eq_interL : ∀ (LD : List (List Char)), LD ≠ [] →
    joinNlL LD = interL '\n' LD ++ ['\n'] := by
  intro LD
  induction LD with
  | nil =>
    intro hc
    exact absurd rfl hc
  | cons x xs ih =>
    intro _
    cases xs with
    | nil => rfl
    | cons y ys =>
      show x ++ '\n' :: joinNlL (y :: ys) = (x ++ '\n' :: interL '\n' (y :: ys)) ++ ['\n']
      rw [ih (List.cons_ne_nil _ _), List.append_assoc]
      rfl

/-- The characters of a block of newline-terminated CSV records. -/
theorem concatAll_rows_data {α : Type} (f : α → List String) : ∀ (l : List α),
    (concatAll (l.map (fun x => csvRow (f x)))).data
      = joinNlL (l.map (fun x => (csvLine (f x)).data)) := by
  intro l
  induction l with
  | nil => rfl
  | cons x xs ih =>
    rw [List.map_cons, List.map_cons]
    show (csvRow (f x) ++ concatAll (xs.map (fun y => csvRow (f y)))).data = _
    rw [String.data_append, ih]
    show ((csvLine (f x) ++ "\n").data) ++ _ = _
    rw [String.data_append, List.append_assoc]
    rfl

/-- The exported text is the newline-terminated joining of the export
lines. -/
theorem exportAsCSV_data (v : Version) :
    (exportAsCSV v).data = joinNlL ((exportLines v).map String.data) := by
  unfold exportAsCSV exportLines
  simp only [List.map_append, List.map_cons, List.map_nil, joinNlL_append, String.data_append,
    concatAll_rows_data, List.map_map, Function.comp, List.append_assoc]
  rfl

/-- Interleaving over a cons with a non-empty tail. -/
theorem interL_cons_of_ne (sep : Char) (x : List Char) (l : List (List Char)) (hl : l ≠ []) :
    interL sep (x :: l) = x ++ sep :: interL sep l := by
  cases l with
  | nil => exact absurd rfl hl
  | cons y ys => rfl

/-- Interleaving a list whose last piece is non-empty is non-empty. -/
theorem interL_ne_nil_of_last (sep : Char) : ∀ (LD : List (List Char)) (z : List Char),
    LD.getLast? = some z → z ≠ [] → interL sep LD ≠ [] := by
  intro LD
  induction LD with
  | nil =>
    intro z hlast
    exact absurd hlast (by simp)
  | cons x xs ih =>
    intro z hlast hz
    cases xs with
    | nil =>
      have hxz : x = z := by simpa using hlast
      rw [show interL sep [x] = x from rfl, hxz]
      exact hz
    | cons y ys =>
      rw [interL_cons_of_ne sep x _ (List.cons_ne_nil _ _)]
      intro hc
      rcases List.append_eq_nil.mp hc with ⟨-, h2⟩
      exact List.cons_ne_nil _ _ h2

/-- Right-trim stability of an interleaving whose last piece is
non-empty and right-trim stable. -/
theorem trimRightL_interL_of_last : ∀ (LD : List (List Char)) (z : List Char),
    LD.getLast? = some z → z ≠ [] → trimRightL z = z →
    trimRightL (interL '\n' LD) = interL '\n' LD := by
  intro LD
  induction LD with
  | nil =>
    intro z hlast _ _
    exact absurd hlast (by simp)
  | cons x xs ih =>
    intro z hlast hz htz
    cases xs with
    | nil =>
      have hxz : x = z := by simpa using hlast
      rw [show interL '\n' [x] = x from rfl, hxz]
      exact htz
    | cons y ys =>
      have hlast2 : (y :: ys).getLast? = some z := by
        rw [← List.getLast?_cons_cons]
        exact hlast
      have hintne : interL '\n' (y :: ys) ≠ [] := interL_ne_nil_of_last '\n' _ z hlast2 hz
      have hintstab := ih z hlast2 hz htz
      rw [interL_cons_of_ne '\n' x _ (List.cons_ne_nil _ _)]
      have hr : trimRightL ('\n' :: interL '\n' (y :: ys)) = '\n' :: interL '\n' (y :: ys) := by
        rw [show ('\n' :: interL '\n' (y :: ys)) = ['\n'] ++ interL '\n' (y :: ys) from rfl]
        rw [trimRightL_append_stable ['\n'] _ hintstab hintne]
      rw [trimRightL_append_stable x _ hr (List.cons_ne_nil _ _)]

/-- Dropping leading whitespace stops at a non-whitespace head. -/
theorem trimLeftL_cons_of_not_ws (c : Char) (l : List Char) (hc : wsp c = false) :
    trimLeftL (c :: l) = c :: l := by
  simp [trimLeftL, List.dropWhile_cons, hc]

/-- Text starting with the MANUFACTURERS header is left-trim stable. -/
theorem trimLeftL_M_append (X : List Char) :
    trimLeftL ("MANUFACTURERS".data ++ X) = "MANUFACTURERS".data ++ X := by
  show trimLeftL ('M' :: ("ANUFACTURERS".data ++ X)) = _
  rw [trimLeftL_cons_of_not_ws 'M' _ (by decide)]
  rfl

/-- Trimming the newline-terminated export text drops exactly the final
newline. -/
theorem trimL_export_shape (REST : List (List Char)) (z : List Char)
    (hlast : ("MANUFACTURERS".data :: REST).getLast? = some z) (hz : z ≠ [])
    (htz : trimRightL z = z) :
    trimL (interL '\n' ("MANUFACTURERS".data :: REST) ++ ['\n'])
      = interL '\n' ("MANUFACTURERS".data :: REST) := by
  unfold trimL
  have hstab := trimRightL_interL_of_last _ z hlast hz htz
  have hleft : trimLeftL (interL '\n' ("MANUFACTURERS".data :: REST) ++ ['\n'])
      = interL '\n' ("MANUFACTURERS".data :: REST) ++ ['\n'] := by
    cases REST with
    | nil => exact trimLeftL_M_append ['\n']
    | cons r rs =>
      rw [interL_cons_of_ne '\n' _ _ (List.cons_ne_nil _ _), List.append_assoc]
      exact trimLeftL_M_append _
  rw [hleft, trimRightL_append_ws _ '\n' (by decide)]
  exact hstab

/-- Folding `String.mk` over the character data recovers the strings. -/
theorem map_mk_data (L : List String) :
    (L.map String.data).map (fun l => (⟨l⟩ : String)) = L := by
  induction L with
  | nil => rfl
  | cons s ss ih => rw [List.map_cons, List.map_cons, ih]

/-- A non-empty list has a last element, which is a member (generic). -/
theorem getLast?_exists {α : Type} (l : List α) (h : l ≠ []) :
    ∃ z, l.getLast? = some z ∧ z ∈ l := by
  cases hrev : l.reverse with
  | nil => exact absurd (by simpa using congrArg List.reverse hrev) h
  | cons c cs =>
    refine ⟨c, by rw [← List.head?_reverse, hrev]; rfl, ?_⟩
    have hmem : c ∈ l.reverse := by rw [hrev]; exact List.mem_cons_self _ _
    exact List.mem_reverse.mp hmem

/-- The head of a left-nonempty append (generic). -/
theorem head?_append_left_generic {α : Type} (a x : List α) (ha : a ≠ []) :
    (a ++ x).head? = a.head? := by
  cases a with
  | nil => exact absurd rfl ha
  | cons c cs => rfl

/-- The last of a right-nonempty append (generic). -/
theorem getLast?_append_right_generic {α : Type} (x b : List α) (hb : b ≠ []) :
    (x ++ b).getLast? = b.getLast? := by
  rw [← List.head?_reverse, ← List.head?_reverse, List.reverse_append]
  exact head?_append_left_generic b.reverse x.reverse (by simpa using hb)

/-- The last element of a mapped list (generic). -/
theorem getLast?_map_generic {α β : Type} (f : α → β) (l : List α) :
    (l.map f).getLast? = l.getLast?.map f := by
  rw [← List.head?_reverse, ← List.head?_reverse, ← List.map_reverse, List.head?_map]

/-- The last export line is non-empty and right-trim stable. -/
theorem exportLines_getLast (v : Version) :
    ∃ z, (exportLines v).getLast? = some z ∧ z.data ≠ [] ∧ trimRightL z.data = z.data := by
  cases haddons : v.addons with
  | nil =>
    refine ⟨aColHdr, ?_, by decide, by decide⟩
    unfold exportLines
    rw [haddons]
    simp only [List.map_nil, List.append_nil]
    rw [getLast?_append_right_generic _ _ (List.cons_ne_nil _ _)]
    rfl
  | cons a as =>
    have hmapne : (v.addons.map (fun a => csvLine (addonFields a))) ≠ [] := by
      rw [haddons]
      simp
    obtain ⟨z, hzlast, hzmem⟩ := getLast?_exists _ hmapne
    obtain ⟨w, hwmem, hweq⟩ := List.mem_map.mp hzmem
    refine ⟨z, ?_, ?_, ?_⟩
    · unfold exportLines
      rw [getLast?_append_right_generic _ _ hmapne]
      exact hzlast
    · rw [← hweq, csvLine_data]
      exact List.cons_ne_nil _ _
    · rw [← hweq]
      exact trimRightL_of_noEdgeWs _ (noEdgeWs_csvLine _)

/-- Every export line is newline-free. -/
theorem exportLines_no_newline (v : Version) (h : VersionWF v) :
    ∀ l ∈ exportLines v, '\n' ∉ l.data := by
  obtain ⟨hm, -, hpl, -, hp, -, ha, -⟩ := h
  unfold exportLines
  simp only [List.forall_mem_append]
  refine ⟨⟨⟨⟨⟨⟨⟨⟨⟨⟨?_, ?_⟩, ?_⟩, ?_⟩, ?_⟩, ?_⟩, ?_⟩, ?_⟩, ?_⟩, ?_⟩, ?_⟩
  · decide
  · intro l hl
    obtain ⟨m, hmem, rfl⟩ := List.mem_map.mp hl
    exact no_newline_csvLine _ (fun f hf => (manufacturerFields_safe m (hm m hmem) f hf).2.1)
  · decide
  · decide
  · intro l hl
    obtain ⟨pl2, hmem, rfl⟩ := List.mem_map.mp hl
    exact no_newline_csvLine _ (fun f hf => (productLineFields_safe pl2 (hpl pl2 hmem) f hf).2.1)
  · decide
  · decide
  · intro l hl
    obtain ⟨p, hmem, rfl⟩ := List.mem_map.mp hl
    exact no_newline_csvLine _ (fun f hf => (productFields_safe p (hp p hmem) f hf).2.1)
  · decide
  · decide
  · intro l hl
    obtain ⟨a, hmem, rfl⟩ := List.mem_map.mp hl
    exact no_newline_csvLine _ (fun f hf => (addonFields_safe a (ha a hmem) f hf).2.1)

/-- Trimming and newline-splitting the exported text recovers the
export lines. -/
theorem jsSplit_trim_export (v : Version) (h : VersionWF v) :
    jsSplit '\n' (jsTrimStr (exportAsCSV v)) = exportLines v := by
  obtain ⟨z, hzlast, hzne, hztrim⟩ := exportLines_getLast v
  obtain ⟨T, hT⟩ : ∃ T, exportLines v = "MANUFACTURERS" :: T := ⟨_, rfl⟩
  unfold jsSplit
  rw [jsTrimStr_data, exportAsCSV_data v, hT, List.map_cons]
  rw [joinNlL_eq_interL _ (List.cons_ne_nil _ _)]
  have hlastm : ("MANUFACTURERS".data :: T.map String.data).getLast? = some z.data := by
    rw [show ("MANUFACTURERS".data :: T.map String.data)
        = ("MANUFACTURERS" :: T).map String.data from rfl]
    rw [getLast?_map_generic, ← hT, hzlast]
    rfl
  have hnl : ∀ x ∈ ("MANUFACTURERS".data :: T.map String.data), '\n' ∉ x := by
    intro x hx
    rw [show ("MANUFACTURERS".data :: T.map String.data)
        = ("MANUFACTURERS" :: T).map String.data from rfl, ← hT] at hx
    obtain ⟨s, hs, rfl⟩ := List.mem_map.mp hx
    exact exportLines_no_newline v h s hs
  rw [trimL_export_shape (T.map String.data) z.data hlastm hzne hztrim]
  rw [splitOnCharL_interL '\n' _ (List.cons_ne_nil _ _) hnl]
  rw [show ("MANUFACTURERS".data :: T.map String.data)
      = ("MANUFACTURERS" :: T).map String.data from rfl]
  rw [map_mk_data]

/-- C1 (amended): for every CSV-safe catalog snapshot — text fields
free of `\"` and newlines and trim-stable, numeric fields finite
decimals that are non-zero where exported through `x || ''`,
`minimumUI`/`maximumUI` integral, list fields non-empty with
`;`-free elements, exactly one rate matching the pricing model, the
never-exported fields absent, and ids distinct per section —
`importFromCSV (exportAsCSV v)` rebuilds exactly the four keyed
collections of the snapshot, every field of every entity reproduced
exactly (numeric fields by value).  Without these conditions the claim
fails, e.g. on a quote inside a name. -/
theorem importFromCSV_exportAsCSV (v : Version) (h : VersionWF v) :
    importFromCSV (exportAsCSV v) = exportedCatalogData v := by
  unfold importFromCSV
  rw [jsSplit_trim_export v h]
  exact importLoop_exportLines v h

/-- C1 counterexample: a manufacturer whose name holds a double quote
is not reproduced by the round trip — `parseCSVLine` strips every
quote, so `a"b` re-imports as `ab` and the claim fails as stated for
arbitrary catalogs. -/
theorem importFromCSV_export_quote_counterexample :
    importFromCSV (exportAsCSV c1Bad) ≠ exportedCatalogData c1Bad ∧
    (objGet "m1" (importFromCSV (exportAsCSV c1Bad)).manufacturers).map Manufacturer.name
      = some "ab" := by
  with_unfolding_all decide

/-- C1 witness: the round trip reproduces a concrete well-formed
catalog with fractional rates, a comma inside a field, list fields and
flags. -/
theorem importFromCSV_exportAsCSV_witness :
    VersionWF c1Good ∧ importFromCSV (exportAsCSV c1Good) = exportedCatalogData c1Good :=
  ⟨by with_unfolding_all decide, importFromCSV_exportAsCSV c1Good (by with_unfolding_all decide)⟩
